import Mathlib

/-!
# go-pivnet: token exchange (`uaa.go`) and the company-group request core

A shallow embedding of `TokenFetcher.GetToken` together with the parts of the Go
standard library it calls, followed by the request/error core that the
company-group tests exercise.

* `encoding/json` is embedded after `scanner.go`, `decode.go` and `encode.go`:
  the scanner is the state machine of `scanner.go`, run once over the text and
  building the value as it goes; `Decoder.Decode` reads the first value of the
  stream and leaves the rest unread; `json.Unmarshal` takes the whole text.
* Texts (request bodies, response bodies, error messages) are sequences of
  Unicode scalar values, i.e. well-formed UTF-8.
* The network and `net/url` are an explicit parameter (`World`): `url.Parse`
  as the error it gives, `http.Client.Do` as the response or error it gives.
* A call of `GetToken` either returns or panics, and records the requests it
  handed to `http.Client.Do`.
-/

namespace Pivnet

/-! ## `encoding/json`: values -/

/-- A decoded JSON value.  Numbers keep their literal text. -/
inductive JValue where
  | null
  | bool (b : Bool)
  | num (lit : List Char)
  | str (s : String)
  | arr (xs : List JValue)
  | obj (kvs : List (String × JValue))

/-- The word Go uses for a JSON value in an `UnmarshalTypeError`. -/
def JValue.kind : JValue → String
  | .null => "null"
  | .bool _ => "bool"
  | .num _ => "number"
  | .str _ => "string"
  | .arr _ => "array"
  | .obj _ => "object"

/-! ## `encoding/json`: writing strings (`encodeState.string`, HTML escaping on) -/

/-- Lower-case hexadecimal digit of `n < 16`. -/
def hexDigit (n : Nat) : Char :=
  if n < 10 then Char.ofNat (48 + n) else Char.ofNat (87 + n)

/-- Characters `json.Marshal` copies unchanged: everything except the control
characters, the double quote, the backslash, `<`, `>`, `&`, U+2028 and U+2029. -/
def htmlSafe (c : Char) : Bool :=
  decide (32 ≤ c.toNat) && c != '"' && c != '\\' && c != '<' && c != '>' && c != '&'
    && decide (c.toNat ≠ 0x2028) && decide (c.toNat ≠ 0x2029)

/-- One character of a string as `json.Marshal` writes it. -/
def escapeChar (c : Char) : List Char :=
  if htmlSafe c then [c]
  else if c = '"' ∨ c = '\\' then ['\\', c]
  else if c = '\n' then ['\\', 'n']
  else if c = '\r' then ['\\', 'r']
  else if c = '\t' then ['\\', 't']
  else ['\\', 'u', hexDigit (c.toNat / 4096 % 16), hexDigit (c.toNat / 256 % 16),
        hexDigit (c.toNat / 16 % 16), hexDigit (c.toNat % 16)]

/-- The contents of a JSON string literal for `s` (without the surrounding quotes). -/
def escape : List Char → List Char
  | [] => []
  | c :: cs => escapeChar c ++ escape cs

/-- A JSON string literal for `s`, as `json.Marshal` writes it. -/
def quote (s : String) : List Char :=
  '"' :: (escape s.data ++ ['"'])

/-! ## `encoding/json`: reading strings (`unquoteBytes`) -/

/-- Value of a hexadecimal digit. -/
def hexVal (c : Char) : Option Nat :=
  if 48 ≤ c.toNat ∧ c.toNat ≤ 57 then some (c.toNat - 48)
  else if 97 ≤ c.toNat ∧ c.toNat ≤ 102 then some (c.toNat - 87)
  else if 65 ≤ c.toNat ∧ c.toNat ≤ 70 then some (c.toNat - 55)
  else none

/-- The code unit written by four hexadecimal digits (`getu4`). -/
def getu4 (h1 h2 h3 h4 : Char) : Option Nat :=
  match hexVal h1, hexVal h2, hexVal h3, hexVal h4 with
  | some a, some b, some c, some d => some (((a * 16 + b) * 16 + c) * 16 + d)
  | _, _, _, _ => none

/-- A piece of a string literal: a character, or a `\uXXXX` code unit. -/
inductive Piece where
  | lit (c : Char)
  | u4 (n : Nat)

/-- First half of `unquoteBytes`: resolve the escapes of the text between the quotes. -/
def pieces : List Char → Option (List Piece)
  | [] => some []
  | c :: rest =>
    if c = '\\' then
      match rest with
      | [] => none
      | e :: rest1 =>
        if e = 'u' then
          match rest1 with
          | h1 :: h2 :: h3 :: h4 :: rest2 =>
            match getu4 h1 h2 h3 h4 with
            | some rr => (Piece.u4 rr :: ·) <$> pieces rest2
            | none => none
          | _ => none
        else if e = '"' ∨ e = '\\' ∨ e = '/' ∨ e = Char.ofNat 39 then
          (Piece.lit e :: ·) <$> pieces rest1
        else if e = 'b' then (Piece.lit (Char.ofNat 8) :: ·) <$> pieces rest1
        else if e = 'f' then (Piece.lit (Char.ofNat 12) :: ·) <$> pieces rest1
        else if e = 'n' then (Piece.lit '\n' :: ·) <$> pieces rest1
        else if e = 'r' then (Piece.lit '\r' :: ·) <$> pieces rest1
        else if e = 't' then (Piece.lit '\t' :: ·) <$> pieces rest1
        else none
    else if c = '"' ∨ c.toNat < 32 then none
    else (Piece.lit c :: ·) <$> pieces rest

/-- Second half of `unquoteBytes`: a high surrogate directly followed by a low
surrogate escape is one character; any other surrogate becomes U+FFFD. -/
def joinPieces : List Piece → List Char
  | [] => []
  | .lit c :: rest => c :: joinPieces rest
  | .u4 rr :: rest =>
    if 0xD800 ≤ rr ∧ rr < 0xE000 then
      match rest with
      | .u4 rr1 :: rest1 =>
        if rr < 0xDC00 ∧ 0xDC00 ≤ rr1 ∧ rr1 < 0xE000 then
          Char.ofNat ((rr - 0xD800) * 1024 + (rr1 - 0xDC00) + 0x10000) :: joinPieces rest1
        else Char.ofNat 0xFFFD :: joinPieces (.u4 rr1 :: rest1)
      | .lit c :: rest1 => Char.ofNat 0xFFFD :: joinPieces (.lit c :: rest1)
      | [] => [Char.ofNat 0xFFFD]
    else Char.ofNat rr :: joinPieces rest

/-- The string denoted by the text between the quotes of a literal (`unquoteBytes`);
`none` when the text is not a well-formed literal. -/
def unquote (raw : List Char) : Option (List Char) :=
  joinPieces <$> pieces raw

/-! ## `encoding/json`: the scanner (`scanner.go`) -/

/-- What the scanner can report. -/
inductive ScanError where
  /-- The input holds nothing but white space. -/
  | eof
  /-- The input ends inside a value. -/
  | truncated
  /-- A character that cannot continue the value (`SyntaxError`). -/
  | invalid (c : Char) (context : String)
  /-- The decoder's `phasePanicMsg`; not reachable after a successful scan. -/
  | phase

/-- The byte the scanner is looking at when it meets `c`: the first byte of its
UTF-8 encoding, as a code point. -/
def leadByte (c : Char) : Nat :=
  if c.toNat < 0x80 then c.toNat
  else if c.toNat < 0x800 then 0xC0 + c.toNat / 64
  else if c.toNat < 0x10000 then 0xE0 + c.toNat / 4096
  else 0xF0 + c.toNat / 262144

/-- The offending byte as `quoteChar` prints it in a `SyntaxError`. -/
def quoteChar (c : Char) : String :=
  let b := leadByte c
  if b = 39 then String.mk [Char.ofNat 39, '\\', Char.ofNat 39, Char.ofNat 39]
  else
    let inner : List Char :=
      if b = 92 then ['\\', '\\']
      else if b = 7 then ['\\', 'a']
      else if b = 8 then ['\\', 'b']
      else if b = 12 then ['\\', 'f']
      else if b = 10 then ['\\', 'n']
      else if b = 13 then ['\\', 'r']
      else if b = 9 then ['\\', 't']
      else if b = 11 then ['\\', 'v']
      else if b < 32 ∨ b = 127 then ['\\', 'x', hexDigit (b / 16), hexDigit (b % 16)]
      else [Char.ofNat b]
    String.mk (Char.ofNat 39 :: (inner ++ [Char.ofNat 39]))

/-- Error text of a scan error met by `Decoder.Decode`. -/
def ScanError.text : ScanError → String
  | .eof => "EOF"
  | .truncated => "unexpected EOF"
  | .invalid c context => "invalid character " ++ quoteChar c ++ " " ++ context
  | .phase => "JSON decoder out of sync - data changing underfoot?"

/-- Error text of a scan error met by `json.Unmarshal`. -/
def ScanError.strictText : ScanError → String
  | .eof => "unexpected end of JSON input"
  | .truncated => "unexpected end of JSON input"
  | e => e.text

/-- An open object or array, with what has been read of it. -/
inductive Frame where
  /-- Inside an object, at (or in) a key. -/
  | objKey (ms : List (String × JValue))
  /-- Inside an object, after a key. -/
  | objColon (ms : List (String × JValue)) (key : String)
  /-- Inside an object, at (or in) the value of `key`. -/
  | objValue (ms : List (String × JValue)) (key : String)
  /-- Inside an object, after a key:value pair. -/
  | objNext (ms : List (String × JValue))
  /-- Inside an array. -/
  | arrValue (es : List JValue)

/-- The scanner's `step` states. -/
inductive Step where
  | beginValue
  | beginValueOrEmpty
  | beginStringOrEmpty
  | beginString
  | endValue
  | inString
  | inStringEsc
  | inStringEscU (k : Nat)
  | neg
  | zero
  | one
  | dot
  | dot0
  | e
  | eSign
  | e0
  | lit (todo : List Char) (name : String) (v : JValue)

/-- Scanner state: the step, the stack of open containers, the text of the
string or number being read. -/
structure Scanner where
  step : Step
  stack : List Frame
  raw : List Char

/-- Result of feeding one character. -/
inductive Out where
  | cont (s : Scanner)
  /-- The top-level value ends with this character. -/
  | done (v : JValue)
  /-- The top-level value ended before this character. -/
  | doneBefore (v : JValue)
  | fail (e : ScanError)

def isSpace (c : Char) : Bool :=
  c = ' ' || c = '\t' || c = '\r' || c = '\n'

def isDigit (c : Char) : Bool :=
  decide (48 ≤ c.toNat ∧ c.toNat ≤ 57)

def maxNestingDepth : Nat := 10000

/-- Hand a completed value to the innermost open container. -/
def deliver (v : JValue) : List Frame → Out
  | [] => .done v
  | .objValue ms k :: st => .cont ⟨.endValue, .objNext (ms ++ [(k, v)]) :: st, []⟩
  | .arrValue es :: st => .cont ⟨.endValue, .arrValue (es ++ [v]) :: st, []⟩
  | _ :: _ => .fail .phase

/-- The step `stateEndValue`. -/
def endValue (stack : List Frame) (c : Char) : Out :=
  if isSpace c then .cont ⟨.endValue, stack, []⟩
  else
    match stack with
    | .objColon ms k :: st =>
      if c = ':' then .cont ⟨.beginValue, .objValue ms k :: st, []⟩
      else .fail (.invalid c "after object key")
    | .objNext ms :: st =>
      if c = ',' then .cont ⟨.beginString, .objKey ms :: st, []⟩
      else if c = '\x7d' then deliver (.obj ms) st
      else .fail (.invalid c "after object key:value pair")
    | .arrValue es :: st =>
      if c = ',' then .cont ⟨.beginValue, .arrValue es :: st, []⟩
      else if c = ']' then deliver (.arr es) st
      else .fail (.invalid c "after array element")
    | _ => .fail (.invalid c "")

/-- The step `stateBeginValue`. -/
def beginValue (stack : List Frame) (c : Char) : Out :=
  if isSpace c then .cont ⟨.beginValue, stack, []⟩
  else if c = '\x7b' then
    if stack.length + 1 ≤ maxNestingDepth then .cont ⟨.beginStringOrEmpty, .objKey [] :: stack, []⟩
    else .fail (.invalid c "exceeded max depth")
  else if c = '[' then
    if stack.length + 1 ≤ maxNestingDepth then .cont ⟨.beginValueOrEmpty, .arrValue [] :: stack, []⟩
    else .fail (.invalid c "exceeded max depth")
  else if c = '"' then .cont ⟨.inString, stack, []⟩
  else if c = '-' then .cont ⟨.neg, stack, [c]⟩
  else if c = '0' then .cont ⟨.zero, stack, [c]⟩
  else if c = 't' then .cont ⟨.lit ['r', 'u', 'e'] "true" (.bool true), stack, []⟩
  else if c = 'f' then .cont ⟨.lit ['a', 'l', 's', 'e'] "false" (.bool false), stack, []⟩
  else if c = 'n' then .cont ⟨.lit ['u', 'l', 'l'] "null" .null, stack, []⟩
  else if isDigit c then .cont ⟨.one, stack, [c]⟩
  else .fail (.invalid c "looking for beginning of value")

/-- The step `stateBeginString`. -/
def beginString (stack : List Frame) (c : Char) : Out :=
  if isSpace c then .cont ⟨.beginString, stack, []⟩
  else if c = '"' then .cont ⟨.inString, stack, []⟩
  else .fail (.invalid c "looking for beginning of object key string")

/-- The closing quote of a string literal: a key when an object expects one,
a string value otherwise. -/
def endString (stack : List Frame) (raw : List Char) : Out :=
  match unquote raw with
  | none => .fail .phase
  | some s =>
    match stack with
    | .objKey ms :: st => .cont ⟨.endValue, .objColon ms (String.mk s) :: st, []⟩
    | st => deliver (.str (String.mk s)) st

/-- A number literal ended before `c`; `c` is then read by `stateEndValue`. -/
def endNumber (stack : List Frame) (raw : List Char) (c : Char) : Out :=
  match stack with
  | [] => .doneBefore (.num raw)
  | st =>
    match deliver (.num raw) st with
    | .cont s => endValue s.stack c
    | o => o

/-- Feed one character to the scanner. -/
def stepChar (s : Scanner) (c : Char) : Out :=
  match s.step with
  | .beginValue => beginValue s.stack c
  | .beginValueOrEmpty =>
    if isSpace c then .cont s
    else if c = ']' then
      match s.stack with
      | .arrValue es :: st => deliver (.arr es) st
      | _ => .fail (.invalid c "")
    else beginValue s.stack c
  | .beginStringOrEmpty =>
    if isSpace c then .cont s
    else if c = '\x7d' then
      match s.stack with
      | .objKey ms :: st => deliver (.obj ms) st
      | _ => .fail (.invalid c "")
    else beginString s.stack c
  | .beginString => beginString s.stack c
  | .endValue => endValue s.stack c
  | .inString =>
    if c = '"' then endString s.stack s.raw
    else if c = '\\' then .cont ⟨.inStringEsc, s.stack, s.raw ++ [c]⟩
    else if c.toNat < 32 then .fail (.invalid c "in string literal")
    else .cont ⟨.inString, s.stack, s.raw ++ [c]⟩
  | .inStringEsc =>
    if c = 'b' ∨ c = 'f' ∨ c = 'n' ∨ c = 'r' ∨ c = 't' ∨ c = '\\' ∨ c = '/' ∨ c = '"' then
      .cont ⟨.inString, s.stack, s.raw ++ [c]⟩
    else if c = 'u' then .cont ⟨.inStringEscU 0, s.stack, s.raw ++ [c]⟩
    else .fail (.invalid c "in string escape code")
  | .inStringEscU k =>
    if (hexVal c).isSome then
      .cont ⟨if k < 3 then .inStringEscU (k + 1) else .inString, s.stack, s.raw ++ [c]⟩
    else .fail (.invalid c "in \\u hexadecimal character escape")
  | .neg =>
    if c = '0' then .cont ⟨.zero, s.stack, s.raw ++ [c]⟩
    else if isDigit c then .cont ⟨.one, s.stack, s.raw ++ [c]⟩
    else .fail (.invalid c "in numeric literal")
  | .one =>
    if isDigit c then .cont ⟨.one, s.stack, s.raw ++ [c]⟩
    else if c = '.' then .cont ⟨.dot, s.stack, s.raw ++ [c]⟩
    else if c = 'e' ∨ c = 'E' then .cont ⟨.e, s.stack, s.raw ++ [c]⟩
    else endNumber s.stack s.raw c
  | .zero =>
    if c = '.' then .cont ⟨.dot, s.stack, s.raw ++ [c]⟩
    else if c = 'e' ∨ c = 'E' then .cont ⟨.e, s.stack, s.raw ++ [c]⟩
    else endNumber s.stack s.raw c
  | .dot =>
    if isDigit c then .cont ⟨.dot0, s.stack, s.raw ++ [c]⟩
    else .fail (.invalid c "after decimal point in numeric literal")
  | .dot0 =>
    if isDigit c then .cont ⟨.dot0, s.stack, s.raw ++ [c]⟩
    else if c = 'e' ∨ c = 'E' then .cont ⟨.e, s.stack, s.raw ++ [c]⟩
    else endNumber s.stack s.raw c
  | .e =>
    if c = '+' ∨ c = '-' then .cont ⟨.eSign, s.stack, s.raw ++ [c]⟩
    else if isDigit c then .cont ⟨.e0, s.stack, s.raw ++ [c]⟩
    else .fail (.invalid c "in exponent of numeric literal")
  | .eSign =>
    if isDigit c then .cont ⟨.e0, s.stack, s.raw ++ [c]⟩
    else .fail (.invalid c "in exponent of numeric literal")
  | .e0 =>
    if isDigit c then .cont ⟨.e0, s.stack, s.raw ++ [c]⟩
    else endNumber s.stack s.raw c
  | .lit todo name v =>
    match todo with
    | [] => .fail .phase
    | x :: more =>
      if c = x then
        match more with
        | [] => deliver v s.stack
        | _ :: _ => .cont ⟨.lit more name v, s.stack, []⟩
      else .fail (.invalid c ("in literal " ++ name ++ " (expecting " ++ quoteChar x ++ ")"))

/-- The input ended in state `s`. -/
def atEOF (s : Scanner) : Except ScanError (JValue × List Char) :=
  match s.stack, s.step with
  | [], .zero => .ok (.num s.raw, [])
  | [], .one => .ok (.num s.raw, [])
  | [], .dot0 => .ok (.num s.raw, [])
  | [], .e0 => .ok (.num s.raw, [])
  | [], .beginValue => .error .eof
  | _, _ => .error .truncated

/-- Run the scanner from state `s`: the first complete value and the text after it. -/
def run : Scanner → List Char → Except ScanError (JValue × List Char)
  | s, [] => atEOF s
  | s, c :: rest =>
    match stepChar s c with
    | .cont s1 => run s1 rest
    | .done v => .ok (v, rest)
    | .doneBefore v => .ok (v, c :: rest)
    | .fail e => .error e

/-- Read the first JSON value of a text (`Decoder.readValue`, then the decoding
of the literals): the value and the unread remainder. -/
def scanValue (data : List Char) : Except ScanError (JValue × List Char) :=
  run ⟨.beginValue, [], []⟩ data

/-- Read a text that must be exactly one JSON value (`checkValid`, as used by
`json.Unmarshal`): after the value only white space may follow. -/
def scanDocument (data : List Char) : Except String JValue :=
  match scanValue data with
  | .error e => .error e.strictText
  | .ok (v, rest) =>
    match rest.find? (fun c => !isSpace c) with
    | some c => .error (ScanError.invalid c "after top-level value").text
    | none => .ok v

/-! ### The reachable states of the scanner -/

/-- A stack onto which a value may be delivered: the top level, the value of
an object member, or an array. -/
def valuePos : List Frame → Prop
  | [] => True
  | .objValue _ _ :: _ => True
  | .arrValue _ :: _ => True
  | _ => False

/-- Every open container was opened where a value may stand. -/
def wfStack : List Frame → Prop
  | [] => True
  | _ :: st => valuePos st ∧ wfStack st

/-- A stack on which a string may be read: as a value, or as a key. -/
def stringPos (stack : List Frame) : Prop :=
  valuePos stack ∨ ∃ ms st, stack = .objKey ms :: st

/-- The states the scanner can reach from its start. -/
def Scanner.Inv (s : Scanner) : Prop :=
  wfStack s.stack ∧
  match s.step with
  | .beginValue => valuePos s.stack
  | .beginValueOrEmpty => ∃ es st, s.stack = .arrValue es :: st
  | .beginStringOrEmpty => ∃ ms st, s.stack = .objKey ms :: st
  | .beginString => ∃ ms st, s.stack = .objKey ms :: st
  | .endValue =>
    (∃ ms k st, s.stack = .objColon ms k :: st) ∨ (∃ ms st, s.stack = .objNext ms :: st)
      ∨ (∃ es st, s.stack = .arrValue es :: st)
  | .inString => stringPos s.stack ∧ (pieces s.raw).isSome = true
  | .inStringEsc => stringPos s.stack ∧ ∃ r, s.raw = r ++ ['\\'] ∧ (pieces r).isSome = true
  | .inStringEscU k =>
    stringPos s.stack ∧ k ≤ 3 ∧ ∃ r hs, s.raw = r ++ '\\' :: 'u' :: hs ∧ hs.length = k
      ∧ (∀ h ∈ hs, (hexVal h).isSome = true) ∧ (pieces r).isSome = true
  | .lit todo _ _ => valuePos s.stack ∧ todo ≠ []
  | _ => valuePos s.stack

/-- A step result that keeps the scanner among its reachable states and is not
the decoder's out-of-sync failure. -/
def Out.Good : Out → Prop
  | .cont s => s.Inv
  | .fail .phase => False
  | _ => True

/-! ## `encoding/json`: storing a value into a struct with one string field -/

/-- Case folding of a key for the comparison with an ASCII field name: ASCII
letters fold to upper case, and the only two characters outside ASCII whose
fold is an ASCII letter are U+017F (long s) and U+212A (Kelvin sign). -/
def foldChar (c : Char) : Char :=
  if 97 ≤ c.toNat ∧ c.toNat ≤ 122 then Char.ofNat (c.toNat - 32)
  else if c.toNat = 0x17F then 'S'
  else if c.toNat = 0x212A then 'K'
  else c

/-- A JSON key selects the field tagged `name` when it is that name, exactly or
up to case folding. -/
def matchesKey (name key : String) : Bool :=
  decide (key = name) || decide (key.data.map foldChar = name.data.map foldChar)

/-- What `reflect` knows of a struct with a single string field. -/
structure StringField where
  /-- The type as `reflect.Type.String` prints it. -/
  goType : String
  /-- The name of the struct. -/
  structName : String
  /-- The name in the field tag. -/
  name : String

/-- Text of the `UnmarshalTypeError` for a value of the wrong kind in the field. -/
def fieldTypeError (f : StringField) (v : JValue) : String :=
  "json: cannot unmarshal " ++ v.kind ++ " into Go struct field " ++ f.structName ++ "."
    ++ f.name ++ " of type string"

/-- Text of the `UnmarshalTypeError` for a top-level value that is not an object. -/
def topTypeError (f : StringField) (v : JValue) : String :=
  "json: cannot unmarshal " ++ v.kind ++ " into Go value of type " ++ f.goType

/-- The decoder keeps the first type error (`saveError`). -/
def saveError (saved : Option String) (e : String) : Option String :=
  match saved with
  | none => some e
  | some s => some s

/-- Walk the members of an object (`decodeState.object`): a matching key with a
string value sets the field, with `null` leaves it, with any other value records
a type error and goes on; other keys are skipped. -/
def storeMembers (f : StringField) :
    List (String × JValue) → String × Option String → String × Option String
  | [], acc => acc
  | (k, v) :: ms, (cur, saved) =>
    if matchesKey f.name k then
      match v with
      | .str s => storeMembers f ms (s, saved)
      | .null => storeMembers f ms (cur, saved)
      | v => storeMembers f ms (cur, saveError saved (fieldTypeError f v))
    else storeMembers f ms (cur, saved)

/-- Store a JSON value into the struct (`decodeState.unmarshal`): the new field
value and the saved error. -/
def unmarshalInto (f : StringField) (v : JValue) (cur : String) : String × Option String :=
  match v with
  | .null => (cur, none)
  | .obj ms => storeMembers f ms (cur, none)
  | v => (cur, some (topTypeError f v))

/-! ## `net/http` -/

/-- An `*http.Request` as far as the callers set it. -/
structure Request where
  Method : String
  URL : String
  /-- The header lines in the order they were added. -/
  Header : List (String × String)
  Body : String

/-- An `*http.Response` as far as the callers read it. -/
structure Response where
  StatusCode : Int
  Body : String

/-- The part of the Go runtime that is outside the program. -/
structure World where
  /-- The function `url.Parse`: the error for a URL it rejects, `none` for one it accepts. -/
  urlParse : String → Option String
  /-- The method `http.Client.Do`: the error when no response arrives, or the response. -/
  Do : Request → Except String Response

/-- The function `http.NewRequest` for a method that `validMethod` accepts (its
callers pass a method literal): it fails exactly when `url.Parse` rejects
the URL, and then returns a nil request together with the error. -/
def NewRequest (w : World) (method url body : String) : Option Request × Option String :=
  match w.urlParse url with
  | some e => (none, some e)
  | none => (some { Method := method, URL := url, Header := [], Body := body }, none)

/-- The method `Header.Add` on the header of a request, for a key in canonical form. -/
def Request.headerAdd (r : Request) (key value : String) : Request :=
  { r with Header := r.Header ++ [(key, value)] }

/-- An integer as `%v` (and `%d`) print it. -/
def formatInt : Int → String
  | .ofNat n => Nat.repr n
  | .negSucc n => "-" ++ Nat.repr (n + 1)

/-! ## `uaa.go` -/

structure AuthResp where
  Token : String

/-- Modelled from the spec: the declaration of `AuthBody` is not among the
sources; the spec gives the request body as the object with the single field
`refresh_token` holding the refresh credential. -/
structure AuthBody where
  RefreshToken : String

structure TokenFetcher where
  Endpoint : String
  RefreshToken : String
  UserAgent : String

def NewTokenFetcher (endpoint refreshToken userAgent : String) : TokenFetcher :=
  { Endpoint := endpoint, RefreshToken := refreshToken, UserAgent := userAgent }

/-- The call `json.Marshal(body)` for an `AuthBody`: the bytes and the (nil) error. -/
def Marshal (body : AuthBody) : String × Option String :=
  (String.mk ("\x7b\"refresh_token\":".data ++ quote body.RefreshToken ++ "\x7d".data), none)

/-- The text `json.Marshal` writes for `AuthResp{Token: token}`. -/
def authRespJSON (token : String) : String :=
  String.mk ("\x7b\"access_token\":".data ++ quote token ++ "\x7d".data)

def authRespField : StringField :=
  { goType := "pivnet.AuthResp", structName := "AuthResp", name := "access_token" }

/-- The call `json.NewDecoder(resp.Body).Decode(&response)`: the struct after the
call and the error. -/
def Decode (body : String) (response : AuthResp) : AuthResp × Option String :=
  match scanValue body.data with
  | .error e => (response, some e.text)
  | .ok (v, _) =>
    let r := unmarshalInto authRespField v response.Token
    ({ Token := r.1 }, r.2)

/-- How a call ends: it returns its two results, or the goroutine panics. -/
inductive Outcome where
  | returned (token : String) (err : Option String)
  | panicked (msg : String)

/-- A call of `GetToken`: the requests handed to `http.Client.Do`, in order, and
how the call ended. -/
structure Run where
  sent : List Request
  outcome : Outcome

def nilDereference : String :=
  "runtime error: invalid memory address or nil pointer dereference"

/-- The method `TokenFetcher.GetToken`. -/
def GetToken (w : World) (t : TokenFetcher) : Run :=
  let body : AuthBody := { RefreshToken := t.RefreshToken }
  let (b, err) := Marshal body
  match err with
  | some e =>
    ⟨[], .returned "" (some ("failed to marshal API token request body: " ++ e))⟩
  | none =>
    let (req, err) := NewRequest w "POST" (t.Endpoint ++ "/authentication/access_tokens") b
    -- `req.Header.Add(...)` comes before the check of `err`
    match req with
    | none => ⟨[], .panicked nilDereference⟩
    | some req =>
      let req := req.headerAdd "Content-Type" "application/json"
      let req := if t.UserAgent ≠ "" then req.headerAdd "User-Agent" t.UserAgent else req
      match err with
      | some e =>
        ⟨[], .returned "" (some ("failed to construct API token request: " ++ e))⟩
      | none =>
        match w.Do req with
        | .error e => ⟨[req], .returned "" (some ("API token request failed: " ++ e))⟩
        | .ok resp =>
          if resp.StatusCode ≠ 200 then
            ⟨[req], .returned ""
              (some ("failed to fetch API token - received status " ++ formatInt resp.StatusCode))⟩
          else
            let (response, err) := Decode resp.Body { Token := "" }
            match err with
            | some e =>
              ⟨[req], .returned "" (some ("failed to decode API token response: " ++ e))⟩
            | none => ⟨[req], .returned response.Token none⟩

/-- A world whose `url.Parse` rejects exactly the URLs holding an ASCII control
character (the first check `url.Parse` makes) and whose transport gives `answer`
to every request. -/
def fixedWorld (answer : Except String Response) : World :=
  { urlParse := fun u =>
      if u.data.any (fun c => decide (c.toNat < 32 ∨ c.toNat = 127)) then
        some "net/url: invalid control character in URL"
      else none
    Do := fun _ => answer }

/-- A token fetcher for the examples. -/
def sampleFetcher : TokenFetcher :=
  NewTokenFetcher "https://pivnet.example" "refresh" "agent"

/-- A token fetcher whose endpoint ends in a line feed. -/
def badFetcher : TokenFetcher :=
  NewTokenFetcher "https://pivnet.example\n" "refresh" "agent"

/-- The request `GetToken` builds for `t`. -/
def tokenRequest (t : TokenFetcher) : Request :=
  { Method := "POST"
    URL := t.Endpoint ++ "/authentication/access_tokens"
    Header := ("Content-Type", "application/json") ::
      (if t.UserAgent ≠ "" then [("User-Agent", t.UserAgent)] else [])
    Body := (Marshal { RefreshToken := t.RefreshToken }).1 }

/-- The outcome of `GetToken` once the request is built and handed to the transport. -/
def afterDo (answer : Except String Response) : Outcome :=
  match answer with
  | .error e => .returned "" (some ("API token request failed: " ++ e))
  | .ok resp =>
    if resp.StatusCode ≠ 200 then
      .returned "" (some ("failed to fetch API token - received status " ++ formatInt resp.StatusCode))
    else
      match (Decode resp.Body { Token := "" }).2 with
      | some e => .returned "" (some ("failed to decode API token response: " ++ e))
      | none => .returned (Decode resp.Body { Token := "" }).1.Token none

/-- The text `part` occurs in `text`. -/
def Contains (text part : String) : Prop :=
  ∃ a b : String, text = a ++ part ++ b

/-- A value the decoder stores into a string field without complaint. -/
def JValue.isStringOrNull : JValue → Bool
  | .str _ => true
  | .null => true
  | _ => false

/-- The bodies `Decode` rejects for an `AuthResp`: no complete JSON value at the
start; a first value that is neither an object nor `null`; an object that gives
a key matching `access_token` a value that is neither a string nor `null`. -/
def Undecodable (body : String) : Prop :=
  match scanValue body.data with
  | .error _ => True
  | .ok (.obj ms, _) =>
    ∃ kv ∈ ms, matchesKey "access_token" kv.1 = true ∧ kv.2.isStringOrNull = false
  | .ok (.null, _) => False
  | .ok (_, _) => True

/-- The piece that the escaped form of `c` denotes. -/
def pieceOf (c : Char) : Piece :=
  if htmlSafe c ∨ c = '"' ∨ c = '\\' ∨ c = '\n' ∨ c = '\r' ∨ c = '\t' then .lit c
  else .u4 c.toNat

/-! ## The request core and the company-group client

The sources hold the tests of the company-group client, not the client; the
definitions of this section follow the specification (§4.2, §4.3, §7). -/

/-- Modelled from the spec: `ClientConfig` (§3), absent from the sources. -/
structure ClientConfig where
  Host : String
  UserAgent : String

/-- Modelled from the spec: the capability "produce a token on demand" (§4.1),
absent from the sources; `GetToken` is the result of the call. -/
structure AccessTokenService where
  GetToken : String × Option String

/-- Modelled from the spec: `StructuredError` (§3), absent from the sources.
`Raw` is set when the body of the failed response could not be decoded. -/
structure StructuredError where
  HTTPStatus : Int
  Message : String
  Raw : Option String

/-- Modelled from the spec: the error taxonomy of §7, absent from the sources. -/
inductive CoreError where
  /-- The token could not be obtained; the error of `GetToken`, unchanged. -/
  | token (text : String)
  /-- No response arrived. -/
  | transport (cause : String)
  /-- The service answered outside the success range. -/
  | structured (e : StructuredError)
  /-- A success body could not be decoded into the expected entity. -/
  | decode (text : String)

/-- Modelled from the spec: the text of an error (§7): a structured error
surfaces the message of the server, or the decode error in its place. -/
def CoreError.text : CoreError → String
  | .token text => text
  | .transport cause => cause
  | .structured e => e.Message
  | .decode text => text

/-- Modelled from the spec: a call into the request core, with the requests it
handed to the transport and its result. -/
structure Exchange (α : Type) where
  sent : List Request
  result : Except CoreError α

/-- The error of an exchange, if it failed. -/
def Exchange.err {α : Type} (x : Exchange α) : Option CoreError :=
  match x.result with
  | .error e => some e
  | .ok _ => none

/-- Modelled from the spec: the error body convention `message: string` (§6),
decoded like a Go struct with that one field. -/
def messageField : StringField :=
  { goType := "pivnet.pivnetErr", structName := "pivnetErr", name := "message" }

/-- The text `json.Marshal` writes for an error body with message `m`. -/
def messageJSON (m : String) : String :=
  String.mk ("\x7b\"message\":".data ++ quote m ++ "\x7d".data)

/-- Modelled from the spec: §4.2 step 2, the host and the path joined by exactly
one slash. -/
def joinURL (host path : String) : String :=
  let h := if host.data.getLast? = some '/' then String.mk host.data.dropLast else host
  let p := if path.data.head? = some '/' then path else "/" ++ path
  h ++ p

/-- Modelled from the spec: §4.2 step 6 for a status outside 200-299: the body
is decoded as an object with a `message`; the error carries the message, or the
text of the decode error when the body cannot be decoded. -/
def errorOfResponse (resp : Response) : StructuredError :=
  match scanDocument resp.Body.data with
  | .error e => { HTTPStatus := resp.StatusCode, Message := e, Raw := some resp.Body }
  | .ok v =>
    match unmarshalInto messageField v "" with
    | (_, some e) => { HTTPStatus := resp.StatusCode, Message := e, Raw := some resp.Body }
    | (m, none) => { HTTPStatus := resp.StatusCode, Message := m, Raw := none }

/-- Modelled from the spec: `RequestExecutor.Do` (§4.2), absent from the
sources.  `requestBody` is the JSON text of the body, when there is one. -/
def Do (cfg : ClientConfig) (svc : AccessTokenService) (w : World)
    (method path : String) (requestBody : Option String) : Exchange String :=
  match svc.GetToken with
  | (_, some e) => ⟨[], .error (.token e)⟩
  | (token, none) =>
    let req : Request :=
      { Method := method
        URL := joinURL cfg.Host path
        Header :=
          (match requestBody with
            | some _ => [("Content-Type", "application/json")]
            | none => [])
          ++ [("Authorization", "Bearer " ++ token)]
          ++ (if cfg.UserAgent ≠ "" then [("User-Agent", cfg.UserAgent)] else [])
        Body := requestBody.getD "" }
    match w.Do req with
    | .error cause => ⟨[req], .error (.transport cause)⟩
    | .ok resp =>
      if 200 ≤ resp.StatusCode ∧ resp.StatusCode ≤ 299 then ⟨[req], .ok resp.Body⟩
      else ⟨[req], .error (.structured (errorOfResponse resp))⟩

/-- The request `Do` builds once it has the token. -/
def coreRequest (cfg : ClientConfig) (token method path : String) (requestBody : Option String) :
    Request :=
  { Method := method
    URL := joinURL cfg.Host path
    Header :=
      (match requestBody with
        | some _ => [("Content-Type", "application/json")]
        | none => [])
      ++ [("Authorization", "Bearer " ++ token)]
      ++ (if cfg.UserAgent ≠ "" then [("User-Agent", cfg.UserAgent)] else [])
    Body := requestBody.getD "" }

/-- The result of `Do` once the request is handed to the transport. -/
def classify (answer : Except String Response) : Except CoreError String :=
  match answer with
  | .error cause => .error (.transport cause)
  | .ok resp =>
    if 200 ≤ resp.StatusCode ∧ resp.StatusCode ≤ 299 then .ok resp.Body
    else .error (.structured (errorOfResponse resp))

/-- Modelled from the spec: a member of a company group (§3). -/
structure CompanyGroupMember where
  ID : Int
  Name : String
  Email : String
  IsAdmin : Bool

/-- Modelled from the spec: a company group (§3); entitlement records are
kept as text. -/
structure CompanyGroup where
  ID : Int
  Name : String
  Members : List CompanyGroupMember
  PendingInvitations : List String
  Entitlements : List String

/-- Modelled from the spec: the client of §2 as far as the company-group
operations use it.  The URL prefix of the resources and the JSON shape of the
entities are declared outside the sources and are taken as given. -/
structure Client where
  config : ClientConfig
  tokens : AccessTokenService
  /-- The fixed prefix of the resource paths. -/
  apiPrefix : String
  /-- Decoding of the body of a single-entity response. -/
  decodeGroup : String → Except String CompanyGroup
  /-- Decoding of the body of a list response. -/
  decodeGroups : String → Except String (List CompanyGroup)

/-- Modelled from the spec: the body of a member mutation (§4.3), the minimal
object `member` with the e-mail address and, when adding, the admin flag as a
JSON boolean. -/
def memberJSON (email : String) (admin : Option Bool) : String :=
  String.mk ("\x7b\"member\":\x7b\"email\":".data ++ quote email ++
    (match admin with
      | some true => ",\"admin\":true".data
      | some false => ",\"admin\":false".data
      | none => []) ++ "\x7d\x7d".data)

/-- Modelled from the spec: the admin flag arrives as text and is sent as a JSON
boolean; the text `true` is the boolean true, any other text (in particular
`false`) the boolean false. -/
def adminFlag (isAdmin : String) : Bool :=
  decide (isAdmin = "true")

/-- Decode the body of a successful exchange. -/
def decodeWith {α : Type} (decode : String → Except String α) (x : Exchange String) :
    Exchange α :=
  match x.result with
  | .error e => ⟨x.sent, .error e⟩
  | .ok body =>
    match decode body with
    | .error text => ⟨x.sent, .error (.decode text)⟩
    | .ok a => ⟨x.sent, .ok a⟩

/-- Modelled from the spec: `Get(id)` (§4.3). -/
def CompanyGroups.Get (c : Client) (w : World) (id : Int) : Exchange CompanyGroup :=
  decodeWith c.decodeGroup
    (Do c.config c.tokens w "GET" (c.apiPrefix ++ "/company_groups/" ++ formatInt id) none)

/-- Modelled from the spec: `AddMember(id, email, isAdminFlag)` (§4.3). -/
def CompanyGroups.AddMember (c : Client) (w : World) (id : Int) (email isAdmin : String) :
    Exchange CompanyGroup :=
  decodeWith c.decodeGroup
    (Do c.config c.tokens w "PATCH"
      (c.apiPrefix ++ "/company_groups/" ++ formatInt id ++ "/add_member")
      (some (memberJSON email (some (adminFlag isAdmin)))))

/-- Modelled from the spec: `RemoveMember(id, email)` (§4.3). -/
def CompanyGroups.RemoveMember (c : Client) (w : World) (id : Int) (email : String) :
    Exchange CompanyGroup :=
  decodeWith c.decodeGroup
    (Do c.config c.tokens w "PATCH"
      (c.apiPrefix ++ "/company_groups/" ++ formatInt id ++ "/remove_member")
      (some (memberJSON email none)))

/-- Modelled from the spec: `List()` (§4.3). -/
def CompanyGroups.List (c : Client) (w : World) : Exchange (List CompanyGroup) :=
  decodeWith c.decodeGroups
    (Do c.config c.tokens w "GET" (c.apiPrefix ++ "/company_groups") none)

/-- The exchange `x` of client `c` sent exactly one request, a `PATCH` to `path`
under the host, whose body is a JSON text of the value `v`; and when the server
answers it with a status in 200-299 and a body that decodes to an entity, the
exchange returns that entity and no error. -/
def SendsPatch (c : Client) (w : World) (x : Exchange CompanyGroup) (path : String)
    (v : JValue) : Prop :=
  ∃ req, x.sent = [req]
    ∧ req.Method = "PATCH"
    ∧ req.URL = joinURL c.config.Host path
    ∧ scanDocument req.Body.data = .ok v
    ∧ ∀ s body g, w.Do req = .ok { StatusCode := s, Body := body } → 200 ≤ s ∧ s ≤ 299 →
        c.decodeGroup body = .ok g → x.result = .ok g ∧ x.err = none

/-- A call of one of the four company-group operations. -/
inductive Operation where
  | list
  | get (id : Int)
  | addMember (id : Int) (email isAdmin : String)
  | removeMember (id : Int) (email : String)

/-- The requests an operation hands to the transport. -/
def Operation.sent (c : Client) (w : World) : Operation → List Request
  | .list => (CompanyGroups.List c w).sent
  | .get id => (CompanyGroups.Get c w id).sent
  | .addMember id email isAdmin => (CompanyGroups.AddMember c w id email isAdmin).sent
  | .removeMember id email => (CompanyGroups.RemoveMember c w id email).sent

/-- The error an operation returns (`none` for nil). -/
def Operation.err (c : Client) (w : World) : Operation → Option CoreError
  | .list => (CompanyGroups.List c w).err
  | .get id => (CompanyGroups.Get c w id).err
  | .addMember id email isAdmin => (CompanyGroups.AddMember c w id email isAdmin).err
  | .removeMember id email => (CompanyGroups.RemoveMember c w id email).err

/-- A client for the examples: the host and user agent of the tests, a token
service that succeeds, and entity decoders that accept every body. -/
def sampleClient : Client :=
  { config := { Host := "https://pivnet.example", UserAgent := "pivnet-resource/0.1.0 (some-url)" }
    tokens := { GetToken := ("some-token", none) }
    apiPrefix := "/api/v2"
    decodeGroup := fun _ =>
      .ok { ID := 1234, Name := "some company group", Members := [],
            PendingInvitations := [], Entitlements := [] }
    decodeGroups := fun _ => .ok [] }

/-! # Theorems -/

/-! ## Strings survive marshalling and scanning -/

theorem hexVal_hexDigit (d : Nat) (h : d < 16) : hexVal (hexDigit d) = some d := by
  interval_cases d <;> rfl

theorem getu4_hexDigits (n : Nat) (h : n < 65536) :
    getu4 (hexDigit (n / 4096 % 16)) (hexDigit (n / 256 % 16)) (hexDigit (n / 16 % 16))
      (hexDigit (n % 16)) = some n := by
  unfold getu4
  rw [hexVal_hexDigit _ (Nat.mod_lt _ (by norm_num)), hexVal_hexDigit _ (Nat.mod_lt _ (by norm_num)),
    hexVal_hexDigit _ (Nat.mod_lt _ (by norm_num)), hexVal_hexDigit _ (Nat.mod_lt _ (by norm_num))]
  simp only [Option.some.injEq]
  omega

theorem char_not_surrogate (c : Char) : ¬ (0xD800 ≤ c.toNat ∧ c.toNat < 0xE000) := by
  have h := c.valid
  simp only [Char.toNat, UInt32.toNat, UInt32.isValidChar, Nat.isValidChar] at *
  omega

theorem htmlSafe_iff (c : Char) : htmlSafe c = true ↔
    (32 ≤ c.toNat ∧ c ≠ '"' ∧ c ≠ '\\' ∧ c ≠ '<' ∧ c ≠ '>' ∧ c ≠ '&' ∧ c.toNat ≠ 0x2028
      ∧ c.toNat ≠ 0x2029) := by
  simp [htmlSafe, and_assoc]

theorem unsafe_lt (c : Char) (h : ¬ htmlSafe c = true) : c.toNat < 65536 := by
  rw [htmlSafe_iff] at h
  by_contra hc
  apply h
  refine ⟨by omega, ?_, ?_, ?_, ?_, ?_, by omega, by omega⟩ <;>
    (intro he; subst he; revert hc; decide)

theorem pieces_cons (c : Char) (rest : List Char) :
    pieces (c :: rest) =
      if c = '\\' then
        match rest with
        | [] => none
        | e :: rest1 =>
          if e = 'u' then
            match rest1 with
            | h1 :: h2 :: h3 :: h4 :: rest2 =>
              match getu4 h1 h2 h3 h4 with
              | some rr => (Piece.u4 rr :: ·) <$> pieces rest2
              | none => none
            | _ => none
          else if e = '"' ∨ e = '\\' ∨ e = '/' ∨ e = Char.ofNat 39 then
            (Piece.lit e :: ·) <$> pieces rest1
          else if e = 'b' then (Piece.lit (Char.ofNat 8) :: ·) <$> pieces rest1
          else if e = 'f' then (Piece.lit (Char.ofNat 12) :: ·) <$> pieces rest1
          else if e = 'n' then (Piece.lit '\n' :: ·) <$> pieces rest1
          else if e = 'r' then (Piece.lit '\r' :: ·) <$> pieces rest1
          else if e = 't' then (Piece.lit '\t' :: ·) <$> pieces rest1
          else none
      else if c = '"' ∨ c.toNat < 32 then none
      else (Piece.lit c :: ·) <$> pieces rest := by
  conv_lhs => unfold pieces

theorem pieces_escapeChar (c : Char) (rest : List Char) :
    pieces (escapeChar c ++ rest) = (pieceOf c :: ·) <$> pieces rest := by
  unfold escapeChar pieceOf
  by_cases hs : htmlSafe c = true
  · have h := (htmlSafe_iff c).1 hs
    have h32 : ¬ c.toNat < 32 := by omega
    simp [hs, pieces_cons, h.2.1, h.2.2.1, h32]
  · simp only [hs, if_false, false_or, Bool.false_eq_true]
    by_cases h1 : c = '"'
    · subst h1; simp [pieces_cons]
    by_cases h2 : c = '\\'
    · subst h2; simp [pieces_cons]
    by_cases h3 : c = '\n'
    · subst h3; simp [pieces_cons]
    by_cases h4 : c = '\r'
    · subst h4; simp [pieces_cons]
    by_cases h5 : c = '\t'
    · subst h5; simp [pieces_cons]
    simp [h1, h2, h3, h4, h5, pieces_cons, getu4_hexDigits _ (unsafe_lt c hs)]

theorem joinPieces_pieceOf (c : Char) (ps : List Piece) :
    joinPieces (pieceOf c :: ps) = c :: joinPieces ps := by
  unfold pieceOf
  split_ifs
  · rfl
  · conv_lhs => unfold joinPieces
    rw [if_neg (char_not_surrogate c), Char.ofNat_toNat]

theorem pieces_escape (s rest : List Char) :
    pieces (escape s ++ rest) = (s.map pieceOf ++ ·) <$> pieces rest := by
  induction s with
  | nil => simp [escape]
  | cons c cs ih =>
    simp only [escape, List.append_assoc, pieces_escapeChar, ih, List.map_cons]
    cases pieces rest <;> simp

theorem joinPieces_map (s : List Char) : joinPieces (s.map pieceOf) = s := by
  induction s with
  | nil => rfl
  | cons c cs ih => simp [joinPieces_pieceOf, ih]

theorem unquote_escape (s : List Char) : unquote (escape s) = some s := by
  have h := pieces_escape s []
  simp only [List.append_nil] at h
  simp [unquote, h, pieces, joinPieces_map]

theorem run_cons (s : Scanner) (c : Char) (rest : List Char) :
    run s (c :: rest) =
      match stepChar s c with
      | .cont s1 => run s1 rest
      | .done v => .ok (v, rest)
      | .doneBefore v => .ok (v, c :: rest)
      | .fail e => .error e := by
  conv_lhs => unfold run

theorem run_inString_escapeChar (st : List Frame) (raw : List Char) (c : Char) (cs : List Char) :
    run ⟨.inString, st, raw⟩ (escapeChar c ++ cs) = run ⟨.inString, st, raw ++ escapeChar c⟩ cs := by
  unfold escapeChar
  by_cases hs : htmlSafe c = true
  · have h := (htmlSafe_iff c).1 hs
    have h32 : ¬ c.toNat < 32 := by omega
    simp [hs, run_cons, stepChar, h.2.1, h.2.2.1, h32]
  · simp only [hs, if_false, false_or, Bool.false_eq_true]
    by_cases h1 : c = '"'
    · subst h1; simp [run_cons, stepChar]
    by_cases h2 : c = '\\'
    · subst h2; simp [run_cons, stepChar]
    by_cases h3 : c = '\n'
    · subst h3; simp [run_cons, stepChar]
    by_cases h4 : c = '\r'
    · subst h4; simp [run_cons, stepChar]
    by_cases h5 : c = '\t'
    · subst h5; simp [run_cons, stepChar]
    simp [h1, h2, h3, h4, h5, run_cons, stepChar, hexVal_hexDigit _ (Nat.mod_lt _ (by norm_num : 16 > 0))]

theorem run_inString_escape (st : List Frame) (s raw cs : List Char) :
    run ⟨.inString, st, raw⟩ (escape s ++ cs) = run ⟨.inString, st, raw ++ escape s⟩ cs := by
  induction s generalizing raw with
  | nil => simp [escape]
  | cons c s ih =>
    simp only [escape, List.append_assoc]
    rw [run_inString_escapeChar, ih, List.append_assoc]

/-- Scanning a marshalled string that is a value of an object member. -/
theorem run_string_value (ms : List (String × JValue)) (k : String) (st : List Frame)
    (s : String) (cs : List Char) :
    run ⟨.beginValue, .objValue ms k :: st, []⟩ (quote s ++ cs) =
      run ⟨.endValue, .objNext (ms ++ [(k, .str s)]) :: st, []⟩ cs := by
  simp only [quote, List.cons_append, List.append_assoc, run_cons, stepChar, beginValue]
  simp only [isSpace]
  simp [run_inString_escape, run_cons, stepChar, endString, unquote_escape, deliver]

/-- Scanning a marshalled string that is a key of an object. -/
theorem run_string_key (ms : List (String × JValue)) (st : List Frame)
    (k : String) (cs : List Char) :
    run ⟨.beginString, .objKey ms :: st, []⟩ (quote k ++ cs) =
      run ⟨.endValue, .objColon ms k :: st, []⟩ cs := by
  simp only [quote, List.cons_append, List.append_assoc, run_cons, stepChar, beginString]
  simp [isSpace, run_inString_escape, run_cons, stepChar, endString, unquote_escape]

/-- Scanning a marshalled string that is the first key of an object. -/
theorem run_string_firstKey (ms : List (String × JValue)) (st : List Frame)
    (k : String) (cs : List Char) :
    run ⟨.beginStringOrEmpty, .objKey ms :: st, []⟩ (quote k ++ cs) =
      run ⟨.endValue, .objColon ms k :: st, []⟩ cs := by
  simp only [quote, List.cons_append, List.append_assoc, run_cons, stepChar, beginString]
  simp [isSpace, run_inString_escape, run_cons, stepChar, endString, unquote_escape]

/-- The scanner reads a marshalled object with one string member back. -/
theorem scanValue_object1 (k v : String) :
    scanValue ('\x7b' :: (quote k ++ ':' :: (quote v ++ ['\x7d']))) =
      .ok (.obj [(k, .str v)], []) := by
  rw [scanValue, run_cons]
  simp only [stepChar, beginValue]
  simp only [isSpace, maxNestingDepth]
  simp only [Char.reduceEq, decide_False, Bool.or_self, Bool.false_eq_true, if_false, if_true,
    List.length_nil, Nat.zero_add, Nat.one_le_ofNat]
  rw [run_string_firstKey, run_cons]
  simp only [stepChar, endValue, isSpace]
  simp only [Char.reduceEq, decide_False, Bool.or_self, Bool.false_eq_true, if_false, if_true]
  rw [run_string_value, run_cons]
  simp [stepChar, endValue, isSpace, deliver]

theorem scanDocument_object1 (k v : String) :
    scanDocument ('\x7b' :: (quote k ++ ':' :: (quote v ++ ['\x7d']))) = .ok (.obj [(k, .str v)]) := by
  simp [scanDocument, scanValue_object1]

/-- The text `json.Marshal` writes for an `AuthResp` with token `T` is a JSON
text of the object with the single member `access_token: T`, for every `T`. -/
theorem authRespJSON_scans (T : String) :
    scanDocument (authRespJSON T).data = .ok (.obj [("access_token", .str T)]) := by
  have hk : "\"access_token\"".data = quote "access_token" := by decide
  have : (authRespJSON T).data
      = '\x7b' :: (quote "access_token" ++ ':' :: (quote T ++ ['\x7d'])) := by
    simp [authRespJSON, ← hk]
  rw [this, scanDocument_object1]

/-- The text `json.Marshal` writes for an error body with message `m` is a JSON
text of the object with the single member `message: m`, for every `m`. -/
theorem messageJSON_scans (m : String) :
    scanDocument (messageJSON m).data = .ok (.obj [("message", .str m)]) := by
  have hk : "\"message\"".data = quote "message" := by decide
  have : (messageJSON m).data
      = '\x7b' :: (quote "message" ++ ':' :: (quote m ++ ['\x7d'])) := by
    simp [messageJSON, ← hk]
  rw [this, scanDocument_object1]

/-! ## The scanner never reports the out-of-sync failure -/

theorem pieces_append : ∀ (n : Nat) (a b : List Char) (pa : List Piece), a.length ≤ n →
    pieces a = some pa → pieces (a ++ b) = (pa ++ ·) <$> pieces b := by
  intro n
  induction n with
  | zero =>
    intro a b pa hn h
    have : a = [] := List.length_eq_zero.1 (Nat.le_zero.1 hn)
    subst this
    simp [pieces] at h
    subst h
    cases hb : pieces b <;> simp [hb]
  | succ n ih =>
    intro a b pa hn h
    cases a with
    | nil =>
      simp [pieces] at h
      subst h
      cases hb : pieces b <;> simp [hb]
    | cons c rest =>
      rw [pieces_cons] at h
      rw [List.cons_append, pieces_cons]
      simp only [List.length_cons] at hn
      by_cases hc : c = '\\'
      · simp only [hc, if_true] at h ⊢
        cases rest with
        | nil => simp at h
        | cons e rest1 =>
          simp only [List.cons_append] at h ⊢
          simp only [List.length_cons] at hn
          by_cases he : e = 'u'
          · simp only [he, if_true] at h ⊢
            match rest1, h, hn with
            | h1 :: h2 :: h3 :: h4 :: rest2, h, hn =>
              simp only [List.cons_append] at h ⊢
              simp only [List.length_cons] at hn
              cases hg : getu4 h1 h2 h3 h4 with
              | none => simp [hg] at h
              | some rr =>
                simp only [hg] at h ⊢
                cases hp : pieces rest2 with
                | none => simp [hp] at h
                | some p2 =>
                  simp only [hp, Option.map_eq_map, Option.map_some', Option.some.injEq] at h
                  subst h
                  rw [ih rest2 b p2 (by omega) hp]
                  cases pieces b <;> simp
            | [], h, _ => simp at h
            | [_], h, _ => simp at h
            | [_, _], h, _ => simp at h
            | [_, _, _], h, _ => simp at h
          · simp only [he, if_false] at h ⊢
            cases hp : pieces rest1 with
            | none => simp [hp] at h
            | some p1 =>
              have hrec := ih rest1 b p1 (by omega) hp
              rw [hrec]
              simp only [hp] at h
              split_ifs at h ⊢ <;>
                (simp only [Option.map_eq_map, Option.map_some', Option.some.injEq] at h
                 subst h
                 cases pieces b <;> simp)
      · simp only [hc, if_false] at h ⊢
        by_cases hq : c = '"' ∨ c.toNat < 32
        · simp [hq] at h
        · simp only [hq, if_false] at h ⊢
          cases hp : pieces rest with
          | none => simp [hp] at h
          | some p1 =>
            simp only [hp, Option.map_eq_map, Option.map_some', Option.some.injEq] at h
            subst h
            rw [ih rest b p1 (by omega) hp]
            cases pieces b <;> simp

theorem pieces_snoc (raw : List Char) (tail : List Char) (pt : List Piece)
    (h : (pieces raw).isSome = true) (ht : pieces tail = some pt) :
    (pieces (raw ++ tail)).isSome = true := by
  obtain ⟨pa, hpa⟩ := Option.isSome_iff_exists.1 h
  rw [pieces_append raw.length raw tail pa (Nat.le_refl _) hpa, ht]
  rfl

theorem valuePos_cases (st : List Frame) (h : valuePos st) :
    st = [] ∨ (∃ ms k st1, st = .objValue ms k :: st1) ∨ (∃ es st1, st = .arrValue es :: st1) := by
  match st, h with
  | [], _ => exact Or.inl rfl
  | .objValue ms k :: st1, _ => exact Or.inr (Or.inl ⟨ms, k, st1, rfl⟩)
  | .arrValue es :: st1, _ => exact Or.inr (Or.inr ⟨es, st1, rfl⟩)

theorem deliver_good (v : JValue) (st : List Frame) (hv : valuePos st) (hw : wfStack st) :
    (deliver v st).Good := by
  rcases valuePos_cases st hv with h | ⟨ms, k, st1, h⟩ | ⟨es, st1, h⟩
  · subst h; trivial
  · subst h
    exact ⟨hw, Or.inr (Or.inl ⟨_, _, rfl⟩)⟩
  · subst h
    exact ⟨hw, Or.inr (Or.inr ⟨_, _, rfl⟩)⟩

theorem endValue_good (stack : List Frame) (c : Char) (hw : wfStack stack)
    (htop : (∃ ms k st, stack = .objColon ms k :: st) ∨ (∃ ms st, stack = .objNext ms :: st)
      ∨ (∃ es st, stack = .arrValue es :: st)) :
    (endValue stack c).Good := by
  unfold endValue
  by_cases hsp : isSpace c = true
  · simp only [hsp, if_true]
    exact ⟨hw, htop⟩
  · simp only [hsp, if_false, Bool.false_eq_true]
    rcases htop with ⟨ms, k, st, h⟩ | ⟨ms, st, h⟩ | ⟨es, st, h⟩
    · subst h
      simp only
      split_ifs
      · exact ⟨hw, trivial⟩
      · trivial
    · subst h
      simp only
      split_ifs
      · exact ⟨hw, ⟨_, _, rfl⟩⟩
      · exact deliver_good _ _ hw.1 hw.2
      · trivial
    · subst h
      simp only
      split_ifs
      · exact ⟨hw, trivial⟩
      · exact deliver_good _ _ hw.1 hw.2
      · trivial

theorem good_cont (s : Scanner) : (Out.cont s).Good = s.Inv := rfl

theorem good_invalid (c : Char) (context : String) :
    (Out.fail (.invalid c context)).Good := trivial

theorem beginValue_good (stack : List Frame) (c : Char) (hw : wfStack stack)
    (hv : valuePos stack) : (beginValue stack c).Good := by
  unfold beginValue
  by_cases h1 : isSpace c = true
  · rw [if_pos h1]; exact ⟨hw, hv⟩
  rw [if_neg h1]
  by_cases h2 : c = '\x7b'
  · rw [if_pos h2]
    by_cases hd : stack.length + 1 ≤ maxNestingDepth
    · rw [if_pos hd]; exact ⟨⟨hv, hw⟩, ⟨_, _, rfl⟩⟩
    · rw [if_neg hd]; exact good_invalid _ _
  rw [if_neg h2]
  by_cases h3 : c = '['
  · rw [if_pos h3]
    by_cases hd : stack.length + 1 ≤ maxNestingDepth
    · rw [if_pos hd]; exact ⟨⟨hv, hw⟩, ⟨_, _, rfl⟩⟩
    · rw [if_neg hd]; exact good_invalid _ _
  rw [if_neg h3]
  by_cases h4 : c = '"'
  · rw [if_pos h4]; exact ⟨hw, Or.inl hv, rfl⟩
  rw [if_neg h4]
  by_cases h5 : c = '-'
  · rw [if_pos h5]; exact ⟨hw, hv⟩
  rw [if_neg h5]
  by_cases h6 : c = '0'
  · rw [if_pos h6]; exact ⟨hw, hv⟩
  rw [if_neg h6]
  by_cases h7 : c = 't'
  · rw [if_pos h7]; exact ⟨hw, hv, by simp⟩
  rw [if_neg h7]
  by_cases h8 : c = 'f'
  · rw [if_pos h8]; exact ⟨hw, hv, by simp⟩
  rw [if_neg h8]
  by_cases h9 : c = 'n'
  · rw [if_pos h9]; exact ⟨hw, hv, by simp⟩
  rw [if_neg h9]
  by_cases h10 : isDigit c = true
  · rw [if_pos h10]; exact ⟨hw, hv⟩
  · rw [if_neg h10]; exact good_invalid _ _

theorem beginString_good (stack : List Frame) (c : Char) (hw : wfStack stack)
    (hk : ∃ ms st, stack = .objKey ms :: st) : (beginString stack c).Good := by
  unfold beginString
  split_ifs
  · exact ⟨hw, hk⟩
  · exact ⟨hw, Or.inr hk, rfl⟩
  · trivial

theorem endString_good (stack : List Frame) (raw : List Char) (hw : wfStack stack)
    (hp : stringPos stack) (hr : (pieces raw).isSome = true) : (endString stack raw).Good := by
  obtain ⟨pa, hpa⟩ := Option.isSome_iff_exists.1 hr
  unfold endString
  simp only [unquote, hpa, Option.map_eq_map, Option.map_some']
  rcases hp with hv | ⟨ms, st, h⟩
  · rcases valuePos_cases stack hv with h | ⟨ms, k, st1, h⟩ | ⟨es, st1, h⟩ <;> subst h <;>
      exact deliver_good _ _ hv hw
  · subst h
    exact ⟨hw, Or.inl ⟨_, _, _, rfl⟩⟩

theorem endNumber_good (stack : List Frame) (raw : List Char) (c : Char) (hw : wfStack stack)
    (hv : valuePos stack) : (endNumber stack raw c).Good := by
  rcases valuePos_cases stack hv with h | ⟨ms, k, st1, h⟩ | ⟨es, st1, h⟩
  · subst h; trivial
  · subst h
    exact endValue_good _ c hw (Or.inr (Or.inl ⟨_, _, rfl⟩))
  · subst h
    exact endValue_good _ c hw (Or.inr (Or.inr ⟨_, _, rfl⟩))

theorem pieces_plain (c : Char) (h1 : c ≠ '\\') (h2 : c ≠ '"') (h3 : ¬ c.toNat < 32) :
    pieces [c] = some [.lit c] := by
  rw [pieces_cons]
  simp [h1, h2, h3, pieces]

theorem pieces_simple_escape (c : Char)
    (h : c = 'b' ∨ c = 'f' ∨ c = 'n' ∨ c = 'r' ∨ c = 't' ∨ c = '\\' ∨ c = '/' ∨ c = '"') :
    ∃ p, pieces ['\\', c] = some [p] := by
  rcases h with h | h | h | h | h | h | h | h <;> subst h <;> exact ⟨_, rfl⟩

theorem pieces_u4 (a b c d : Char) (ha : (hexVal a).isSome = true) (hb : (hexVal b).isSome = true)
    (hc : (hexVal c).isSome = true) (hd : (hexVal d).isSome = true) :
    ∃ p, pieces ['\\', 'u', a, b, c, d] = some [p] := by
  obtain ⟨va, hva⟩ := Option.isSome_iff_exists.1 ha
  obtain ⟨vb, hvb⟩ := Option.isSome_iff_exists.1 hb
  obtain ⟨vc, hvc⟩ := Option.isSome_iff_exists.1 hc
  obtain ⟨vd, hvd⟩ := Option.isSome_iff_exists.1 hd
  refine ⟨.u4 (((va * 16 + vb) * 16 + vc) * 16 + vd), ?_⟩
  rw [pieces_cons]
  simp [getu4, hva, hvb, hvc, hvd, pieces]

theorem stepChar_good (s : Scanner) (c : Char) (hs : s.Inv) : (stepChar s c).Good := by
  obtain ⟨step, stack, raw⟩ := s
  obtain ⟨hw, h⟩ := hs
  simp only at hw
  cases step with
  | beginValue => exact beginValue_good stack c hw h
  | beginValueOrEmpty =>
    obtain ⟨es, st, hst⟩ := h
    simp only at hst
    subst hst
    simp only [stepChar]
    by_cases h1 : isSpace c = true
    · rw [if_pos h1]; exact ⟨hw, ⟨_, _, rfl⟩⟩
    rw [if_neg h1]
    by_cases h2 : c = ']'
    · rw [if_pos h2]; exact deliver_good _ _ hw.1 hw.2
    · rw [if_neg h2]; exact beginValue_good _ c hw trivial
  | beginStringOrEmpty =>
    obtain ⟨ms, st, hst⟩ := h
    simp only at hst
    subst hst
    simp only [stepChar]
    by_cases h1 : isSpace c = true
    · rw [if_pos h1]; exact ⟨hw, ⟨_, _, rfl⟩⟩
    rw [if_neg h1]
    by_cases h2 : c = '\x7d'
    · rw [if_pos h2]; exact deliver_good _ _ hw.1 hw.2
    · rw [if_neg h2]; exact beginString_good _ c hw ⟨_, _, rfl⟩
  | beginString => exact beginString_good stack c hw h
  | endValue => exact endValue_good stack c hw h
  | inString =>
    obtain ⟨hp, hr⟩ := h
    simp only at hp hr
    simp only [stepChar]
    by_cases h1 : c = '"'
    · rw [if_pos h1]; exact endString_good stack raw hw hp hr
    rw [if_neg h1]
    by_cases h2 : c = '\\'
    · rw [if_pos h2]; exact ⟨hw, hp, raw, by rw [h2], hr⟩
    rw [if_neg h2]
    by_cases h3 : c.toNat < 32
    · rw [if_pos h3]; exact good_invalid _ _
    · rw [if_neg h3]
      exact ⟨hw, hp, pieces_snoc raw [c] _ hr (pieces_plain c h2 h1 h3)⟩
  | inStringEsc =>
    obtain ⟨hp, r, hraw, hr⟩ := h
    simp only at hp hraw
    subst hraw
    simp only [stepChar]
    by_cases h1 : c = 'b' ∨ c = 'f' ∨ c = 'n' ∨ c = 'r' ∨ c = 't' ∨ c = '\\' ∨ c = '/' ∨ c = '"'
    · rw [if_pos h1]
      obtain ⟨p, hpc⟩ := pieces_simple_escape c h1
      refine ⟨hw, hp, ?_⟩
      have := pieces_snoc r ['\\', c] _ hr hpc
      simpa using this
    rw [if_neg h1]
    by_cases h2 : c = 'u'
    · rw [if_pos h2]
      exact ⟨hw, hp, Nat.zero_le _, r, [], by simp [h2], rfl, by simp, hr⟩
    · rw [if_neg h2]; exact good_invalid _ _
  | inStringEscU k =>
    obtain ⟨hp, hk, r, hs, hraw, hlen, hhex, hr⟩ := h
    simp only at hp hraw
    subst hraw
    simp only [stepChar]
    by_cases h1 : (hexVal c).isSome = true
    · rw [if_pos h1]
      have hhex1 : ∀ h ∈ hs ++ [c], (hexVal h).isSome = true := by
        intro x hx
        rcases List.mem_append.1 hx with hx | hx
        · exact hhex x hx
        · simp only [List.mem_singleton] at hx; subst hx; exact h1
      by_cases hk3 : k < 3
      · rw [if_pos hk3]
        exact ⟨hw, hp, hk3, r, hs ++ [c], by simp, by simp [hlen], hhex1, hr⟩
      · rw [if_neg hk3]
        have hk' : hs.length = 3 := by omega
        match hs, hk', hhex1 with
        | [a, b, d], _, hhex1 =>
          obtain ⟨p, hpc⟩ := pieces_u4 a b d c (hhex1 a (by simp)) (hhex1 b (by simp))
            (hhex1 d (by simp)) h1
          refine ⟨hw, hp, ?_⟩
          have := pieces_snoc r ['\\', 'u', a, b, d, c] _ hr hpc
          simpa using this
    · rw [if_neg h1]; exact good_invalid _ _
  | neg =>
    simp only [stepChar]
    split_ifs
    · exact ⟨hw, h⟩
    · exact ⟨hw, h⟩
    · exact good_invalid _ _
  | zero =>
    simp only [stepChar]
    split_ifs
    · exact ⟨hw, h⟩
    · exact ⟨hw, h⟩
    · exact endNumber_good stack raw c hw h
  | one =>
    simp only [stepChar]
    split_ifs
    · exact ⟨hw, h⟩
    · exact ⟨hw, h⟩
    · exact ⟨hw, h⟩
    · exact endNumber_good stack raw c hw h
  | dot =>
    simp only [stepChar]
    split_ifs
    · exact ⟨hw, h⟩
    · exact good_invalid _ _
  | dot0 =>
    simp only [stepChar]
    split_ifs
    · exact ⟨hw, h⟩
    · exact ⟨hw, h⟩
    · exact endNumber_good stack raw c hw h
  | e =>
    simp only [stepChar]
    split_ifs
    · exact ⟨hw, h⟩
    · exact ⟨hw, h⟩
    · exact good_invalid _ _
  | eSign =>
    simp only [stepChar]
    split_ifs
    · exact ⟨hw, h⟩
    · exact good_invalid _ _
  | e0 =>
    simp only [stepChar]
    split_ifs
    · exact ⟨hw, h⟩
    · exact endNumber_good stack raw c hw h
  | lit todo name v =>
    obtain ⟨hv, hne⟩ := h
    simp only at hv
    cases todo with
    | nil => exact absurd rfl hne
    | cons x more =>
      simp only [stepChar]
      by_cases h1 : c = x
      · rw [if_pos h1]
        cases more with
        | nil => exact deliver_good _ _ hv hw
        | cons y rest => exact ⟨hw, hv, by simp⟩
      · rw [if_neg h1]; exact good_invalid _ _

theorem atEOF_ne_phase (s : Scanner) : atEOF s ≠ .error .phase := by
  unfold atEOF
  split <;> simp

theorem run_ne_phase (cs : List Char) : ∀ s : Scanner, s.Inv → run s cs ≠ .error .phase := by
  induction cs with
  | nil => intro s _; exact atEOF_ne_phase s
  | cons c rest ih =>
    intro s hs
    rw [run_cons]
    have hg := stepChar_good s c hs
    cases hstep : stepChar s c with
    | cont s1 =>
      rw [hstep] at hg
      exact ih s1 hg
    | done v => simp
    | doneBefore v => simp
    | fail e =>
      rw [hstep] at hg
      cases e with
      | phase => exact absurd hg id
      | eof => simp
      | truncated => simp
      | invalid c1 ctx => simp

theorem scanValue_ne_phase (data : List Char) : scanValue data ≠ .error .phase :=
  run_ne_phase data _ ⟨trivial, trivial⟩

/-! ## `GetToken`, case by case -/

theorem GetToken_rejected (w : World) (t : TokenFetcher) (e : String)
    (h : w.urlParse (t.Endpoint ++ "/authentication/access_tokens") = some e) :
    GetToken w t = ⟨[], .panicked nilDereference⟩ := by
  simp [GetToken, Marshal, NewRequest, h]

theorem GetToken_accepted (w : World) (t : TokenFetcher)
    (h : w.urlParse (t.Endpoint ++ "/authentication/access_tokens") = none) :
    GetToken w t = ⟨[tokenRequest t], afterDo (w.Do (tokenRequest t))⟩ := by
  have hreq : (if t.UserAgent ≠ "" then
        Request.headerAdd (Request.headerAdd
          { Method := "POST", URL := t.Endpoint ++ "/authentication/access_tokens", Header := [],
            Body := (Marshal { RefreshToken := t.RefreshToken }).1 } "Content-Type" "application/json")
          "User-Agent" t.UserAgent
      else Request.headerAdd
          { Method := "POST", URL := t.Endpoint ++ "/authentication/access_tokens", Header := [],
            Body := (Marshal { RefreshToken := t.RefreshToken }).1 } "Content-Type" "application/json")
      = tokenRequest t := by
    unfold tokenRequest Request.headerAdd
    split_ifs <;> simp
  simp only [GetToken, NewRequest, h]
  simp only [Marshal] at hreq ⊢
  rw [hreq]
  unfold afterDo
  cases hd : w.Do (tokenRequest t) with
  | error e => simp
  | ok resp =>
    by_cases hs : resp.StatusCode = 200
    · simp only [hs, ne_eq, not_true_eq_false, if_false]
      cases hdec : (Decode resp.Body { Token := "" }).2 <;> simp [hdec]
    · simp [hs]

theorem sent_eq (w : World) (t : TokenFetcher) (req : Request)
    (h : (GetToken w t).sent = [req]) :
    req = tokenRequest t ∧ (GetToken w t).outcome = afterDo (w.Do req) := by
  cases hp : w.urlParse (t.Endpoint ++ "/authentication/access_tokens") with
  | some e => rw [GetToken_rejected w t e hp] at h; simp at h
  | none =>
    rw [GetToken_accepted w t hp] at h ⊢
    simp only [List.cons.injEq, and_true] at h
    subst h
    exact ⟨rfl, rfl⟩

theorem contains_append_right (a b : String) : Contains (a ++ b) b :=
  ⟨a, "", by simp⟩

theorem scanValue_of_scanDocument (data : List Char) (v : JValue)
    (h : scanDocument data = .ok v) : ∃ rest, scanValue data = .ok (v, rest) := by
  unfold scanDocument at h
  cases hs : scanValue data with
  | error e => simp [hs] at h
  | ok p =>
    obtain ⟨v1, rest⟩ := p
    simp only [hs] at h
    cases hf : List.find? (fun c => !isSpace c) rest with
    | some c => simp [hf] at h
    | none =>
      simp only [hf, Except.ok.injEq] at h
      exact ⟨rest, by rw [h]⟩

theorem Decode_of_scan (body : String) (r : AuthResp) (v : JValue) (rest : List Char)
    (h : scanValue body.data = .ok (v, rest)) :
    Decode body r = ({ Token := (unmarshalInto authRespField v r.Token).1 },
      (unmarshalInto authRespField v r.Token).2) := by
  simp [Decode, h]

theorem Decode_of_scanError (body : String) (r : AuthResp) (e : ScanError)
    (h : scanValue body.data = .error e) : Decode body r = (r, some e.text) := by
  simp [Decode, h]

/-- C1: when the token endpoint answers the request with status 200 and the
body `access_token: T` (the text `json.Marshal` writes for it, or any other JSON
text of the object with that single member), `GetToken` returns the token `T`
and a nil error. -/
theorem GetToken_returns_token (w : World) (t : TokenFetcher) (req : Request) (body T : String)
    (hsent : (GetToken w t).sent = [req])
    (hresp : w.Do req = .ok { StatusCode := 200, Body := body })
    (hbody : body = authRespJSON T
      ∨ scanDocument body.data = .ok (.obj [("access_token", .str T)])) :
    (GetToken w t).outcome = .returned T none := by
  have hdoc : scanDocument body.data = .ok (.obj [("access_token", .str T)]) := by
    rcases hbody with h | h
    · rw [h]; exact authRespJSON_scans T
    · exact h
  obtain ⟨rest, hscan⟩ := scanValue_of_scanDocument _ _ hdoc
  rw [(sent_eq w t req hsent).2, hresp]
  simp [afterDo, Decode_of_scan body _ _ rest hscan, unmarshalInto, storeMembers, matchesKey,
    authRespField]

/-- C1 at the body the specification writes, `access_token: "T"` with a blank
after the colon. -/
theorem GetToken_returns_token_witness :
    (GetToken (fixedWorld (.ok { StatusCode := 200, Body := "\x7b\"access_token\": \"T\"\x7d" }))
        sampleFetcher).sent
      = [tokenRequest sampleFetcher]
    ∧ scanDocument "\x7b\"access_token\": \"T\"\x7d".data = .ok (.obj [("access_token", .str "T")])
    ∧ (GetToken (fixedWorld (.ok { StatusCode := 200, Body := "\x7b\"access_token\": \"T\"\x7d" }))
        sampleFetcher).outcome
      = .returned "T" none :=
  ⟨rfl, rfl,
    GetToken_returns_token
      (fixedWorld (.ok { StatusCode := 200, Body := "\x7b\"access_token\": \"T\"\x7d" }))
      sampleFetcher
      (tokenRequest sampleFetcher)
      "\x7b\"access_token\": \"T\"\x7d" "T" rfl rfl (Or.inr rfl)⟩

/-- C2: when the token endpoint answers the request with a status other than
200, whatever the body, `GetToken` returns the empty token and the error
`failed to fetch API token - received status` followed by the status in decimal;
the body plays no part in the result. -/
theorem GetToken_status_error (w : World) (t : TokenFetcher) (req : Request) (s : Int)
    (body : String) (hsent : (GetToken w t).sent = [req])
    (hresp : w.Do req = .ok { StatusCode := s, Body := body }) (hs : s ≠ 200) :
    (GetToken w t).outcome =
        .returned "" (some ("failed to fetch API token - received status " ++ formatInt s))
      ∧ Contains ("failed to fetch API token - received status " ++ formatInt s) (formatInt s) := by
  rw [(sent_eq w t req hsent).2, hresp]
  exact ⟨by simp [afterDo, hs], contains_append_right _ _⟩

/-- C2 at status 201 with a body that would decode. -/
theorem GetToken_status_error_witness :
    (201 : Int) ≠ 200
    ∧ (GetToken (fixedWorld (.ok { StatusCode := 201, Body := "\x7b\"access_token\":\"T\"\x7d" }))
        sampleFetcher).outcome
      = .returned "" (some "failed to fetch API token - received status 201") :=
  ⟨by decide,
    (GetToken_status_error
      (fixedWorld (.ok { StatusCode := 201, Body := "\x7b\"access_token\":\"T\"\x7d" }))
      sampleFetcher
      (tokenRequest sampleFetcher)
      201 "\x7b\"access_token\":\"T\"\x7d" rfl rfl (by decide)).1⟩

/-- C4: when the HTTP call fails without a response, `GetToken` returns the
empty token and the error `API token request failed:` followed by the text of
the cause; that text is not the text of a status error for any status code. -/
theorem GetToken_transport_error (w : World) (t : TokenFetcher) (req : Request) (cause : String)
    (hsent : (GetToken w t).sent = [req]) (hresp : w.Do req = .error cause) :
    (GetToken w t).outcome = .returned "" (some ("API token request failed: " ++ cause))
      ∧ Contains ("API token request failed: " ++ cause) cause
      ∧ ∀ s : Int, "API token request failed: " ++ cause
          ≠ "failed to fetch API token - received status " ++ formatInt s := by
  rw [(sent_eq w t req hsent).2, hresp]
  refine ⟨by simp [afterDo], contains_append_right _ _, ?_⟩
  intro s h
  have := congrArg String.data h
  simp at this

/-- C4 at a refused connection. -/
theorem GetToken_transport_error_witness :
    (GetToken (fixedWorld (.error "dial tcp: connection refused"))
        sampleFetcher).outcome
      = .returned "" (some "API token request failed: dial tcp: connection refused") :=
  (GetToken_transport_error (fixedWorld (.error "dial tcp: connection refused"))
    sampleFetcher
    (tokenRequest sampleFetcher)
    "dial tcp: connection refused" rfl rfl).1

theorem storeMembers_saved (f : StringField) (ms : List (String × JValue)) (cur e : String) :
    (storeMembers f ms (cur, some e)).2 = some e := by
  induction ms generalizing cur with
  | nil => rfl
  | cons kv ms ih =>
    obtain ⟨k, v⟩ := kv
    by_cases hm : matchesKey f.name k = true
    · cases v <;> simp [storeMembers, hm, saveError, ih]
    · simp [storeMembers, hm, ih]

theorem storeMembers_rejects (f : StringField) (ms : List (String × JValue)) (cur : String)
    (saved : Option String)
    (h : ∃ kv ∈ ms, matchesKey f.name kv.1 = true ∧ kv.2.isStringOrNull = false) :
    ∃ e, (storeMembers f ms (cur, saved)).2 = some e := by
  induction ms generalizing cur saved with
  | nil => simp at h
  | cons kv ms ih =>
    obtain ⟨k, v⟩ := kv
    cases saved with
    | some e => exact ⟨e, storeMembers_saved f _ cur e⟩
    | none =>
      by_cases hbad : matchesKey f.name k = true ∧ v.isStringOrNull = false
      · obtain ⟨hm, hv⟩ := hbad
        cases v <;> simp [JValue.isStringOrNull] at hv <;>
          simp [storeMembers, hm, saveError, storeMembers_saved]
      · have hrest : ∃ kv ∈ ms, matchesKey f.name kv.1 = true ∧ kv.2.isStringOrNull = false := by
          obtain ⟨kv, hmem, hkv⟩ := h
          rcases List.mem_cons.1 hmem with heq | hmem
          · subst heq; exact absurd hkv hbad
          · exact ⟨kv, hmem, hkv⟩
        by_cases hm : matchesKey f.name k = true
        · have hv : v.isStringOrNull = true := by
            cases hv : v.isStringOrNull
            · exact absurd ⟨hm, hv⟩ hbad
            · rfl
          cases v <;> simp [JValue.isStringOrNull] at hv <;>
            simp [storeMembers, hm] <;> exact ih _ _ hrest
        · simp only [storeMembers, hm, if_false, Bool.false_eq_true]
          exact ih _ _ hrest

theorem storeMembers_accepts (f : StringField) (ms : List (String × JValue)) (cur : String)
    (h : ∀ kv ∈ ms, matchesKey f.name kv.1 = true → kv.2.isStringOrNull = true) :
    (storeMembers f ms (cur, none)).2 = none := by
  induction ms generalizing cur with
  | nil => rfl
  | cons kv ms ih =>
    obtain ⟨k, v⟩ := kv
    have hrest : ∀ kv ∈ ms, matchesKey f.name kv.1 = true → kv.2.isStringOrNull = true :=
      fun kv hmem => h kv (List.mem_cons_of_mem _ hmem)
    by_cases hm : matchesKey f.name k = true
    · have hv := h (k, v) (List.mem_cons_self _ _) hm
      cases v <;> simp [JValue.isStringOrNull] at hv <;>
        simp [storeMembers, hm] <;> exact ih _ hrest
    · simp only [storeMembers, hm, if_false, Bool.false_eq_true]
      exact ih _ hrest

theorem storeMembers_skips (f : StringField) (ms : List (String × JValue))
    (acc : String × Option String)
    (h : ∀ kv ∈ ms, matchesKey f.name kv.1 = false) : storeMembers f ms acc = acc := by
  induction ms with
  | nil => obtain ⟨c, s⟩ := acc; rfl
  | cons kv ms ih =>
    obtain ⟨k, v⟩ := kv
    obtain ⟨c, s⟩ := acc
    have hm := h (k, v) (List.mem_cons_self _ _)
    simp only at hm
    simp only [storeMembers, hm, if_false, Bool.false_eq_true]
    exact ih (fun kv hmem => h kv (List.mem_cons_of_mem _ hmem))

theorem Decode_rejects (body : String) (r : AuthResp) (h : Undecodable body) :
    ∃ e, (Decode body r).2 = some e := by
  unfold Undecodable at h
  cases hs : scanValue body.data with
  | error e => exact ⟨e.text, by rw [Decode_of_scanError body r e hs]⟩
  | ok p =>
    obtain ⟨v, rest⟩ := p
    rw [Decode_of_scan body r v rest hs]
    simp only [hs] at h
    cases v with
    | null => exact absurd h id
    | obj ms => exact storeMembers_rejects authRespField ms _ none h
    | bool b => exact ⟨_, rfl⟩
    | num n => exact ⟨_, rfl⟩
    | str s => exact ⟨_, rfl⟩
    | arr xs => exact ⟨_, rfl⟩

theorem Decode_accepts (body : String) (r : AuthResp) (h : ¬ Undecodable body) :
    (Decode body r).2 = none := by
  unfold Undecodable at h
  cases hs : scanValue body.data with
  | error e => simp [hs] at h
  | ok p =>
    obtain ⟨v, rest⟩ := p
    rw [Decode_of_scan body r v rest hs]
    simp only [hs] at h
    cases v with
    | null => rfl
    | obj ms =>
      apply storeMembers_accepts
      intro kv hmem hm
      by_contra hv
      exact h ⟨kv, hmem, hm, by simpa using hv⟩
    | bool b => exact absurd trivial h
    | num n => exact absurd trivial h
    | str s => exact absurd trivial h
    | arr xs => exact absurd trivial h

/-- C5 (as amended): for a status-200 response whose body the decoder rejects
(no complete JSON value at its start, which includes the empty body and `%%%`;
a first value that is neither an object nor `null`; an object giving
`access_token` a value that is neither a string nor `null`), `GetToken` returns
the empty token and the error `failed to decode API token response:` followed by
the text of the decoder's error. -/
theorem GetToken_decode_error (w : World) (t : TokenFetcher) (req : Request) (body : String)
    (hsent : (GetToken w t).sent = [req])
    (hresp : w.Do req = .ok { StatusCode := 200, Body := body })
    (hbad : Undecodable body) :
    ∃ e, (Decode body { Token := "" }).2 = some e
      ∧ (GetToken w t).outcome
          = .returned "" (some ("failed to decode API token response: " ++ e))
      ∧ Contains ("failed to decode API token response: " ++ e) e := by
  obtain ⟨e, he⟩ := Decode_rejects body { Token := "" } hbad
  refine ⟨e, he, ?_, contains_append_right _ _⟩
  rw [(sent_eq w t req hsent).2, hresp]
  simp [afterDo, he]

/-- C5 (as amended) at the body `%%%`. -/
theorem GetToken_decode_error_witness :
    Undecodable "%%%"
    ∧ ∃ e, (Decode "%%%" { Token := "" }).2 = some e
      ∧ (GetToken (fixedWorld (.ok { StatusCode := 200, Body := "%%%" }))
          sampleFetcher).outcome
          = .returned "" (some ("failed to decode API token response: " ++ e))
      ∧ Contains ("failed to decode API token response: " ++ e) e :=
  ⟨trivial,
    GetToken_decode_error (fixedWorld (.ok { StatusCode := 200, Body := "%%%" }))
      sampleFetcher
      (tokenRequest sampleFetcher)
      "%%%" rfl rfl trivial⟩

/-- C5, as stated, fails: a status-200 body that gives `access_token` the
non-string value `null`, and a body that is not valid JSON because text follows
its first value, both yield the empty token with a nil error. -/
theorem GetToken_decode_error_counterexample :
    (GetToken (fixedWorld (.ok { StatusCode := 200, Body := "\x7b\"access_token\":null\x7d" }))
        sampleFetcher).outcome
      = .returned "" none
    ∧ scanDocument "\x7b\x7d%%%".data
        = .error (ScanError.invalid '%' "after top-level value").text
    ∧ (GetToken (fixedWorld (.ok { StatusCode := 200, Body := "\x7b\x7d%%%" }))
        sampleFetcher).outcome
      = .returned "" none :=
  ⟨rfl, rfl, rfl⟩

/-- C9 (the code departs from it): whenever `http.NewRequest` fails,
`GetToken` does not return: it dereferences the nil request and panics, having
sent nothing. -/
theorem GetToken_panics_on_bad_endpoint (w : World) (t : TokenFetcher) (e : String)
    (h : w.urlParse (t.Endpoint ++ "/authentication/access_tokens") = some e) :
    (GetToken w t).outcome = .panicked nilDereference
      ∧ (GetToken w t).sent = []
      ∧ ∀ tok err, (GetToken w t).outcome ≠ .returned tok err := by
  rw [GetToken_rejected w t e h]
  exact ⟨rfl, rfl, fun _ _ h => by cases h⟩

/-- C9 at an endpoint that ends in a line feed: `url.Parse` rejects the token
URL and the call panics without sending a request. -/
theorem GetToken_panics_on_bad_endpoint_witness :
    (fixedWorld (.error "unused")).urlParse
        (badFetcher.Endpoint ++ "/authentication/access_tokens")
      = some "net/url: invalid control character in URL"
    ∧ (GetToken (fixedWorld (.error "unused")) badFetcher).outcome = .panicked nilDereference
    ∧ (GetToken (fixedWorld (.error "unused")) badFetcher).sent = [] :=
  ⟨rfl,
    (GetToken_panics_on_bad_endpoint (fixedWorld (.error "unused")) badFetcher
      "net/url: invalid control character in URL" rfl).1,
    (GetToken_panics_on_bad_endpoint (fixedWorld (.error "unused")) badFetcher
      "net/url: invalid control character in URL" rfl).2.1⟩

/-- C10: an error returned by `GetToken` always comes with the empty token, and
the converse fails: for a status-200 response whose body starts with a JSON
object none of whose keys is taken for `access_token` (the body `{}` is one),
`GetToken` returns the empty token with a nil error. -/
theorem GetToken_empty_token (w : World) (t : TokenFetcher) :
    (∀ tok e, (GetToken w t).outcome = .returned tok (some e) → tok = "")
    ∧ (∀ req body ms rest, (GetToken w t).sent = [req] →
        w.Do req = .ok { StatusCode := 200, Body := body } →
        scanValue body.data = .ok (.obj ms, rest) →
        (∀ kv ∈ ms, matchesKey "access_token" kv.1 = false) →
        (GetToken w t).outcome = .returned "" none)
    ∧ (∀ req, (GetToken w t).sent = [req] →
        w.Do req = .ok { StatusCode := 200, Body := "\x7b\x7d" } →
        (GetToken w t).outcome = .returned "" none) := by
  have key : ∀ req body ms rest, (GetToken w t).sent = [req] →
        w.Do req = .ok { StatusCode := 200, Body := body } →
        scanValue body.data = .ok (.obj ms, rest) →
        (∀ kv ∈ ms, matchesKey "access_token" kv.1 = false) →
        (GetToken w t).outcome = .returned "" none := by
    intro req body ms rest hsent hresp hscan hkeys
    rw [(sent_eq w t req hsent).2, hresp]
    have hstore := storeMembers_skips authRespField ms ("", none) hkeys
    simp [afterDo, Decode_of_scan body _ _ rest hscan, unmarshalInto, hstore]
  refine ⟨?_, key, ?_⟩
  · intro tok e h
    cases hp : w.urlParse (t.Endpoint ++ "/authentication/access_tokens") with
    | some e1 => rw [GetToken_rejected w t e1 hp] at h; cases h
    | none =>
      rw [GetToken_accepted w t hp] at h
      simp only [afterDo] at h
      cases hd : w.Do (tokenRequest t) with
      | error c => simp [hd] at h; exact h.1.symm
      | ok resp =>
        simp only [hd] at h
        by_cases hs : resp.StatusCode = 200
        · simp only [hs, ne_eq, not_true_eq_false, if_false] at h
          cases hdec : (Decode resp.Body { Token := "" }).2 with
          | none => simp [hdec] at h
          | some e2 => simp [hdec] at h; exact h.1.symm
        · simp [hs] at h; exact h.1.symm
  · intro req hsent hresp
    exact key req "\x7b\x7d" [] [] hsent hresp rfl (fun _ h => by cases h)

/-- C10 at the body `{}`. -/
theorem GetToken_empty_token_witness :
    (GetToken (fixedWorld (.ok { StatusCode := 200, Body := "\x7b\x7d" }))
        sampleFetcher).outcome
      = .returned "" none :=
  (GetToken_empty_token (fixedWorld (.ok { StatusCode := 200, Body := "\x7b\x7d" }))
      sampleFetcher).2.2
    (tokenRequest sampleFetcher) rfl rfl

/-- C3 (as amended): for every endpoint whose token URL `url.Parse` accepts,
`GetToken` hands exactly one request to the HTTP client: a `POST` to the
endpoint followed by `/authentication/access_tokens`, whose body is a JSON text
of the object with the single member `refresh_token: r`, with the header
`Content-Type: application/json` and, exactly when `u` is not empty, the header
`User-Agent: u`. -/
theorem GetToken_request (w : World) (e r u : String)
    (hurl : w.urlParse (e ++ "/authentication/access_tokens") = none) :
    ∃ req, (GetToken w (NewTokenFetcher e r u)).sent = [req]
      ∧ req.Method = "POST"
      ∧ req.URL = e ++ "/authentication/access_tokens"
      ∧ scanDocument req.Body.data = .ok (.obj [("refresh_token", .str r)])
      ∧ req.Header = ("Content-Type", "application/json") ::
          (if u = "" then [] else [("User-Agent", u)]) := by
  refine ⟨tokenRequest (NewTokenFetcher e r u), ?_, rfl, rfl, ?_, ?_⟩
  · rw [GetToken_accepted w _ hurl]
  · have hk : "\"refresh_token\"".data = quote "refresh_token" := by decide
    have : (tokenRequest (NewTokenFetcher e r u)).Body.data
        = '\x7b' :: (quote "refresh_token" ++ ':' :: (quote r ++ ['\x7d'])) := by
      simp [tokenRequest, Marshal, NewTokenFetcher, ← hk]
    rw [this, scanDocument_object1]
  · by_cases hu : u = "" <;> simp [tokenRequest, NewTokenFetcher, hu]

/-- C3 (as amended) at an endpoint that `url.Parse` accepts. -/
theorem GetToken_request_witness :
    ∃ req, (GetToken (fixedWorld (.error "down"))
        (NewTokenFetcher "https://pivnet.example" "refresh" "agent")).sent = [req]
      ∧ req.Method = "POST"
      ∧ req.URL = "https://pivnet.example" ++ "/authentication/access_tokens"
      ∧ scanDocument req.Body.data = .ok (.obj [("refresh_token", .str "refresh")])
      ∧ req.Header = ("Content-Type", "application/json") ::
          (if "agent" = "" then [] else [("User-Agent", "agent")]) :=
  GetToken_request (fixedWorld (.error "down")) "https://pivnet.example" "refresh" "agent" rfl

/-- C3, as stated, fails: for an endpoint that ends in a line feed no request is issued. -/
theorem GetToken_request_counterexample :
    ¬ ∃ req, (GetToken (fixedWorld (.error "down"))
        (NewTokenFetcher "https://pivnet.example\n" "refresh" "agent")).sent = [req] := by
  rintro ⟨req, h⟩
  have h0 : (GetToken (fixedWorld (.error "down"))
      (NewTokenFetcher "https://pivnet.example\n" "refresh" "agent")).sent = [] := rfl
  rw [h0] at h
  cases h

/-! ## The request core -/

theorem Do_token_error (cfg : ClientConfig) (svc : AccessTokenService) (w : World)
    (method path : String) (rb : Option String) (tok e : String)
    (h : svc.GetToken = (tok, some e)) :
    Do cfg svc w method path rb = ⟨[], .error (.token e)⟩ := by
  simp [Do, h]

theorem Do_token_ok (cfg : ClientConfig) (svc : AccessTokenService) (w : World)
    (method path : String) (rb : Option String) (tok : String)
    (h : svc.GetToken = (tok, none)) :
    Do cfg svc w method path rb =
      ⟨[coreRequest cfg tok method path rb], classify (w.Do (coreRequest cfg tok method path rb))⟩ := by
  simp only [Do, h]
  show (match w.Do (coreRequest cfg tok method path rb) with
    | .error cause => (⟨[coreRequest cfg tok method path rb], .error (.transport cause)⟩ :
        Exchange String)
    | .ok resp =>
      if 200 ≤ resp.StatusCode ∧ resp.StatusCode ≤ 299 then
        ⟨[coreRequest cfg tok method path rb], .ok resp.Body⟩
      else ⟨[coreRequest cfg tok method path rb], .error (.structured (errorOfResponse resp))⟩) = _
  cases w.Do (coreRequest cfg tok method path rb) with
  | error cause => rfl
  | ok resp =>
    by_cases hs : 200 ≤ resp.StatusCode ∧ resp.StatusCode ≤ 299 <;> simp [classify, hs]

theorem Do_sent (cfg : ClientConfig) (svc : AccessTokenService) (w : World)
    (method path : String) (rb : Option String) (req : Request)
    (h : (Do cfg svc w method path rb).sent = [req]) :
    (Do cfg svc w method path rb).result = classify (w.Do req)
      ∧ req = coreRequest cfg svc.GetToken.1 method path rb ∧ svc.GetToken.2 = none := by
  cases hg : svc.GetToken with
  | mk tok err =>
    cases err with
    | some e => rw [Do_token_error cfg svc w method path rb tok e hg] at h; cases h
    | none =>
      rw [Do_token_ok cfg svc w method path rb tok hg] at h ⊢
      simp only [List.cons.injEq, and_true] at h
      subst h
      exact ⟨rfl, rfl, rfl⟩

theorem decodeWith_sent {α : Type} (decode : String → Except String α) (x : Exchange String) :
    (decodeWith decode x).sent = x.sent := by
  unfold decodeWith
  cases x.result with
  | error e => rfl
  | ok body =>
    show (match decode body with
      | .error text => (⟨x.sent, .error (.decode text)⟩ : Exchange α)
      | .ok a => ⟨x.sent, .ok a⟩).sent = x.sent
    cases decode body <;> rfl

theorem decodeWith_error {α : Type} (decode : String → Except String α) (x : Exchange String)
    (e : CoreError) (h : x.result = .error e) : (decodeWith decode x).err = some e := by
  simp [decodeWith, h, Exchange.err]

theorem decodeWith_ok {α : Type} (decode : String → Except String α) (x : Exchange String)
    (body : String) (a : α) (h : x.result = .ok body) (hd : decode body = .ok a) :
    (decodeWith decode x).result = .ok a := by
  simp [decodeWith, h, hd]

/-- An operation that got a response outside 200-299 fails with the structured
error of that response. -/
theorem operation_structured (c : Client) (w : World) (op : Operation) (req : Request)
    (resp : Response) (hsent : Operation.sent c w op = [req]) (hresp : w.Do req = .ok resp)
    (hs : ¬ (200 ≤ resp.StatusCode ∧ resp.StatusCode ≤ 299)) :
    Operation.err c w op = some (.structured (errorOfResponse resp)) := by
  cases op with
  | list =>
    simp only [Operation.sent, CompanyGroups.List, decodeWith_sent] at hsent
    have h := (Do_sent _ _ _ _ _ _ _ hsent).1
    rw [hresp] at h
    simp only [classify, hs, if_false] at h
    exact decodeWith_error _ _ _ h
  | get id =>
    simp only [Operation.sent, CompanyGroups.Get, decodeWith_sent] at hsent
    have h := (Do_sent _ _ _ _ _ _ _ hsent).1
    rw [hresp] at h
    simp only [classify, hs, if_false] at h
    exact decodeWith_error _ _ _ h
  | addMember id email isAdmin =>
    simp only [Operation.sent, CompanyGroups.AddMember, decodeWith_sent] at hsent
    have h := (Do_sent _ _ _ _ _ _ _ hsent).1
    rw [hresp] at h
    simp only [classify, hs, if_false] at h
    exact decodeWith_error _ _ _ h
  | removeMember id email =>
    simp only [Operation.sent, CompanyGroups.RemoveMember, decodeWith_sent] at hsent
    have h := (Do_sent _ _ _ _ _ _ _ hsent).1
    rw [hresp] at h
    simp only [classify, hs, if_false] at h
    exact decodeWith_error _ _ _ h

theorem contains_self (a : String) : Contains a a :=
  ⟨"", "", by simp⟩

/-- C6: when the server answers a company-group operation (List, Get,
AddMember, RemoveMember) with a status outside 200-299 and the body
`message: m` (the text `json.Marshal` writes for it, or any other JSON text of
the object with that single member), the operation returns an error whose text
contains `m`. -/
theorem operation_error_message (c : Client) (w : World) (op : Operation) (req : Request)
    (s : Int) (body m : String)
    (hsent : Operation.sent c w op = [req])
    (hresp : w.Do req = .ok { StatusCode := s, Body := body })
    (hs : ¬ (200 ≤ s ∧ s ≤ 299))
    (hbody : body = messageJSON m
      ∨ scanDocument body.data = .ok (.obj [("message", .str m)])) :
    ∃ e, Operation.err c w op = some e ∧ Contains e.text m := by
  have hdoc : scanDocument body.data = .ok (.obj [("message", .str m)]) := by
    rcases hbody with h | h
    · rw [h]; exact messageJSON_scans m
    · exact h
  refine ⟨_, operation_structured c w op req _ hsent hresp hs, ?_⟩
  simp [errorOfResponse, hdoc, unmarshalInto, storeMembers, matchesKey, messageField,
    CoreError.text, contains_self]

/-- C6 at `AddMember`, status 418 and the message `foo message`. -/
theorem operation_error_message_witness :
    Operation.sent sampleClient
        (fixedWorld (.ok { StatusCode := 418, Body := "\x7b\"message\":\"foo message\"\x7d" }))
        (.addMember 1234 "dude@dude.dude" "false")
      = [coreRequest sampleClient.config "some-token" "PATCH"
          "/api/v2/company_groups/1234/add_member"
          (some (memberJSON "dude@dude.dude" (some false)))]
    ∧ ¬ (200 ≤ (418 : Int) ∧ (418 : Int) ≤ 299)
    ∧ scanDocument "\x7b\"message\":\"foo message\"\x7d".data
        = .ok (.obj [("message", .str "foo message")])
    ∧ ∃ e, Operation.err sampleClient
        (fixedWorld (.ok { StatusCode := 418, Body := "\x7b\"message\":\"foo message\"\x7d" }))
        (.addMember 1234 "dude@dude.dude" "false") = some e ∧ Contains e.text "foo message" :=
  ⟨rfl, by decide, rfl,
    operation_error_message sampleClient
      (fixedWorld (.ok { StatusCode := 418, Body := "\x7b\"message\":\"foo message\"\x7d" }))
      (.addMember 1234 "dude@dude.dude" "false")
      (coreRequest sampleClient.config "some-token" "PATCH"
          "/api/v2/company_groups/1234/add_member"
          (some (memberJSON "dude@dude.dude" (some false))))
      418 "\x7b\"message\":\"foo message\"\x7d" "foo message" rfl rfl (by decide)
      (Or.inr rfl)⟩

theorem invalid_text_contains (ch : Char) (context : String) :
    Contains (ScanError.invalid ch context).text "invalid character" := by
  refine ⟨"", " " ++ quoteChar ch ++ " " ++ context, ?_⟩
  have h : "invalid character " = "invalid character" ++ " " := by decide
  simp only [ScanError.text, h, String.append_assoc, String.empty_append]

/-- A text that fails as a JSON document fails at a character, or for ending
before its value is complete. -/
theorem scanDocument_error (data : List Char) (e : String) (h : scanDocument data = .error e) :
    (∃ ch context, e = (ScanError.invalid ch context).text)
      ∨ e = "unexpected end of JSON input" := by
  unfold scanDocument at h
  cases hs : scanValue data with
  | error se =>
    simp only [hs, Except.error.injEq] at h
    subst h
    cases se with
    | eof => exact Or.inr rfl
    | truncated => exact Or.inr rfl
    | invalid ch context => exact Or.inl ⟨ch, context, rfl⟩
    | phase => exact absurd hs (scanValue_ne_phase data)
  | ok p =>
    obtain ⟨v, rest⟩ := p
    simp only [hs] at h
    cases hf : List.find? (fun c => !isSpace c) rest with
    | some ch =>
      simp only [hf, Except.error.injEq] at h
      exact Or.inl ⟨ch, "after top-level value", h.symm⟩
    | none => simp [hf] at h

theorem run_spaces (data : List Char) (h : ∀ ch ∈ data, isSpace ch = true) :
    run ⟨.beginValue, [], []⟩ data = .error .eof := by
  induction data with
  | nil => rfl
  | cons ch rest ih =>
    have h1 : isSpace ch = true := h ch (List.mem_cons_self _ _)
    rw [run_cons]
    simp only [stepChar, beginValue, h1, if_true]
    exact ih (fun x hx => h x (List.mem_cons_of_mem _ hx))

theorem scanDocument_spaces (data : List Char) (h : ∀ ch ∈ data, isSpace ch = true) :
    scanDocument data = .error "unexpected end of JSON input" := by
  simp [scanDocument, scanValue, run_spaces data h, ScanError.strictText]

theorem contains_data (text part : String) (h : Contains text part) :
    part.data <:+: text.data := by
  obtain ⟨a, b, hab⟩ := h
  exact ⟨a.data, b.data, by rw [hab]; simp⟩

/-- C7 (as amended): when the server answers a company-group operation with a
status outside 200-299 and a body that is not valid JSON, the operation returns
an error whose text is the text of the JSON decoding failure (no message is made
up, the raw body is kept): that text contains `invalid character`, as it does
for the body `%%%`, or it is `unexpected end of JSON input`, as it is for an
empty or blank body. -/
theorem operation_error_undecodable (c : Client) (w : World) (op : Operation) (req : Request)
    (s : Int) (body e : String)
    (hsent : Operation.sent c w op = [req])
    (hresp : w.Do req = .ok { StatusCode := s, Body := body })
    (hs : ¬ (200 ≤ s ∧ s ≤ 299))
    (hbody : scanDocument body.data = .error e) :
    Operation.err c w op
        = some (.structured { HTTPStatus := s, Message := e, Raw := some body })
      ∧ (∀ err, Operation.err c w op = some err → err.text = e)
      ∧ ((∃ ch context, e = (ScanError.invalid ch context).text
            ∧ Contains e "invalid character")
          ∨ e = "unexpected end of JSON input")
      ∧ (body = "%%%" → Contains e "invalid character")
      ∧ ((∀ ch ∈ body.data, isSpace ch = true) → e = "unexpected end of JSON input") := by
  have herr := operation_structured c w op req _ hsent hresp hs
  have hE : errorOfResponse { StatusCode := s, Body := body }
      = { HTTPStatus := s, Message := e, Raw := some body } := by
    simp [errorOfResponse, hbody]
  rw [hE] at herr
  refine ⟨herr, ?_, ?_, ?_, ?_⟩
  · intro err h
    rw [herr] at h
    simp only [Option.some.injEq] at h
    subst h
    rfl
  · rcases scanDocument_error _ _ hbody with ⟨ch, context, h⟩ | h
    · exact Or.inl ⟨ch, context, h, by rw [h]; exact invalid_text_contains ch context⟩
    · exact Or.inr h
  · intro hb
    subst hb
    have h0 : scanDocument "%%%".data
        = .error (ScanError.invalid '%' "looking for beginning of value").text := rfl
    rw [h0] at hbody
    simp only [Except.error.injEq] at hbody
    subst hbody
    exact invalid_text_contains _ _
  · intro hsp
    rw [scanDocument_spaces _ hsp] at hbody
    simp only [Except.error.injEq] at hbody
    exact hbody.symm

/-- C7 (as amended) at `List`, status 418 and the body `%%%`. -/
theorem operation_error_undecodable_witness :
    Operation.err sampleClient (fixedWorld (.ok { StatusCode := 418, Body := "%%%" })) .list
      = some (.structured
          { HTTPStatus := 418
            Message := (ScanError.invalid '%' "looking for beginning of value").text
            Raw := some "%%%" })
    ∧ Contains (ScanError.invalid '%' "looking for beginning of value").text "invalid character" :=
  ⟨(operation_error_undecodable sampleClient
      (fixedWorld (.ok { StatusCode := 418, Body := "%%%" })) .list
      (coreRequest sampleClient.config "some-token" "GET" "/api/v2/company_groups" none)
      418 "%%%" (ScanError.invalid '%' "looking for beginning of value").text
      rfl rfl (by decide) rfl).1,
   (operation_error_undecodable sampleClient
      (fixedWorld (.ok { StatusCode := 418, Body := "%%%" })) .list
      (coreRequest sampleClient.config "some-token" "GET" "/api/v2/company_groups" none)
      418 "%%%" (ScanError.invalid '%' "looking for beginning of value").text
      rfl rfl (by decide) rfl).2.2.2.1 rfl⟩

/-- C7, as stated, fails: at `List`, status 418 and the empty body, which is not
valid JSON, the error text is `unexpected end of JSON input`, and `invalid
character` does not occur in it. -/
theorem operation_error_undecodable_counterexample :
    scanDocument "".data = .error "unexpected end of JSON input"
    ∧ Operation.sent sampleClient (fixedWorld (.ok { StatusCode := 418, Body := "" })) .list
        = [coreRequest sampleClient.config "some-token" "GET" "/api/v2/company_groups" none]
    ∧ Operation.err sampleClient (fixedWorld (.ok { StatusCode := 418, Body := "" })) .list
        = some (.structured
            { HTTPStatus := 418, Message := "unexpected end of JSON input", Raw := some "" })
    ∧ ¬ Contains "unexpected end of JSON input" "invalid character" :=
  ⟨rfl, rfl, rfl, fun h => absurd (contains_data _ _ h) (by decide)⟩

theorem memberJSON_add_data (E : String) :
    (memberJSON E (some false)).data =
      '\x7b' :: (quote "member" ++ ':' :: '\x7b' :: (quote "email" ++ ':' :: (quote E ++
        ',' :: (quote "admin" ++ [':', 'f', 'a', 'l', 's', 'e', '\x7d', '\x7d'])))) := by
  have hm : quote "member" = "\"member\"".data := by decide
  have he : quote "email" = "\"email\"".data := by decide
  have ha : quote "admin" = "\"admin\"".data := by decide
  rw [hm, he, ha]
  simp [memberJSON]

theorem memberJSON_remove_data (E : String) :
    (memberJSON E none).data =
      '\x7b' :: (quote "member" ++ ':' :: '\x7b' :: (quote "email" ++ ':' :: (quote E ++
        ['\x7d', '\x7d']))) := by
  have hm : quote "member" = "\"member\"".data := by decide
  have he : quote "email" = "\"email\"".data := by decide
  rw [hm, he]
  simp [memberJSON]

/-- The scanner up to the value of `email` in a member body. -/
theorem run_member_head (E : String) (cs : List Char) :
    run ⟨.beginValue, [], []⟩
        ('\x7b' :: (quote "member" ++ ':' :: '\x7b' :: (quote "email" ++ ':' :: (quote E ++ cs))))
      = run ⟨.endValue, [.objNext [("email", .str E)], .objValue [] "member"], []⟩ cs := by
  rw [run_cons]
  simp only [stepChar, beginValue, isSpace, maxNestingDepth]
  simp only [Char.reduceEq, decide_False, Bool.or_self, Bool.false_eq_true, if_false, if_true,
    List.length_nil, Nat.zero_add, Nat.one_le_ofNat]
  rw [run_string_firstKey, run_cons]
  simp only [stepChar, endValue, isSpace]
  simp only [Char.reduceEq, decide_False, Bool.or_self, Bool.false_eq_true, if_false, if_true]
  rw [run_cons]
  simp only [stepChar, beginValue, isSpace, maxNestingDepth]
  simp only [Char.reduceEq, decide_False, Bool.or_self, Bool.false_eq_true, if_false, if_true,
    List.length_cons, List.length_nil, Nat.zero_add, Nat.reduceAdd, Nat.reduceLeDiff]
  rw [run_string_firstKey, run_cons]
  simp only [stepChar, endValue, isSpace]
  simp only [Char.reduceEq, decide_False, Bool.or_self, Bool.false_eq_true, if_false, if_true]
  rw [run_string_value]
  rfl

theorem scanDocument_memberJSON_add (E : String) :
    scanDocument (memberJSON E (some false)).data
      = .ok (.obj [("member", .obj [("email", .str E), ("admin", .bool false)])]) := by
  have h : scanValue (memberJSON E (some false)).data
      = .ok (.obj [("member", .obj [("email", .str E), ("admin", .bool false)])], []) := by
    rw [memberJSON_add_data, scanValue, run_member_head, run_cons]
    simp only [stepChar, endValue, isSpace]
    simp only [Char.reduceEq, decide_False, Bool.or_self, Bool.false_eq_true, if_false, if_true]
    rw [run_string_key]
    simp [run_cons, stepChar, endValue, beginValue, isSpace, deliver, isDigit]
  simp [scanDocument, h]

theorem scanDocument_memberJSON_remove (E : String) :
    scanDocument (memberJSON E none).data
      = .ok (.obj [("member", .obj [("email", .str E)])]) := by
  have h : scanValue (memberJSON E none).data
      = .ok (.obj [("member", .obj [("email", .str E)])], []) := by
    rw [memberJSON_remove_data, scanValue, run_member_head]
    simp [run_cons, stepChar, endValue, isSpace, deliver]
  simp [scanDocument, h]

theorem sendsPatch_of_body (c : Client) (w : World) (tok path body : String) (v : JValue)
    (htok : c.tokens.GetToken = (tok, none)) (hbody : scanDocument body.data = .ok v) :
    SendsPatch c w (decodeWith c.decodeGroup (Do c.config c.tokens w "PATCH" path (some body)))
      path v := by
  refine ⟨coreRequest c.config tok "PATCH" path (some body), ?_, rfl, rfl, hbody, ?_⟩
  · rw [decodeWith_sent, Do_token_ok _ _ _ _ _ _ tok htok]
  · intro s rbody g hresp hs hdec
    have hres : (Do c.config c.tokens w "PATCH" path (some body)).result = .ok rbody := by
      rw [Do_token_ok _ _ _ _ _ _ tok htok]
      simp [classify, hresp, hs]
    have := decodeWith_ok c.decodeGroup _ rbody g hres hdec
    exact ⟨this, by simp [Exchange.err, this]⟩

/-- C8: for a client whose token service yields a token, `AddMember(id, E,
"false")` sends one `PATCH` to the prefix followed by
`/company_groups/<id>/add_member` whose body is a JSON text of the value
`member: (email: E, admin: false)`, the flag being the boolean; `RemoveMember(id,
E)` sends one `PATCH` to `.../remove_member` whose body is a JSON text of
`member: (email: E)`, without an admin member; a 2xx response whose body decodes
to an entity makes either return that entity and no error. -/
theorem member_mutation_requests (c : Client) (w : World) (id : Int) (E tok : String)
    (htok : c.tokens.GetToken = (tok, none)) :
    SendsPatch c w (CompanyGroups.AddMember c w id E "false")
        (c.apiPrefix ++ "/company_groups/" ++ formatInt id ++ "/add_member")
        (.obj [("member", .obj [("email", .str E), ("admin", .bool false)])])
    ∧ SendsPatch c w (CompanyGroups.RemoveMember c w id E)
        (c.apiPrefix ++ "/company_groups/" ++ formatInt id ++ "/remove_member")
        (.obj [("member", .obj [("email", .str E)])]) := by
  constructor
  · have hflag : adminFlag "false" = false := by decide
    unfold CompanyGroups.AddMember
    rw [hflag]
    exact sendsPatch_of_body c w tok _ _ _ htok (scanDocument_memberJSON_add E)
  · unfold CompanyGroups.RemoveMember
    exact sendsPatch_of_body c w tok _ _ _ htok (scanDocument_memberJSON_remove E)

/-- C8 at the group 1234 and the address of the tests. -/
theorem member_mutation_requests_witness :
    sampleClient.tokens.GetToken = ("some-token", none)
    ∧ SendsPatch sampleClient (fixedWorld (.ok { StatusCode := 200, Body := "\x7b\x7d" }))
        (CompanyGroups.AddMember sampleClient
          (fixedWorld (.ok { StatusCode := 200, Body := "\x7b\x7d" })) 1234 "dude@dude.dude" "false")
        ("/api/v2" ++ "/company_groups/" ++ formatInt 1234 ++ "/add_member")
        (.obj [("member", .obj [("email", .str "dude@dude.dude"), ("admin", .bool false)])])
    ∧ (CompanyGroups.AddMember sampleClient
          (fixedWorld (.ok { StatusCode := 200, Body := "\x7b\x7d" })) 1234 "dude@dude.dude"
          "false").sent.map (fun r => r.Body)
        = ["\x7b\"member\":\x7b\"email\":\"dude@dude.dude\",\"admin\":false\x7d\x7d"]
    ∧ (CompanyGroups.RemoveMember sampleClient
          (fixedWorld (.ok { StatusCode := 200, Body := "\x7b\x7d" })) 1234
          "dude@dude.dude").sent.map (fun r => r.Body)
        = ["\x7b\"member\":\x7b\"email\":\"dude@dude.dude\"\x7d\x7d"] :=
  ⟨rfl,
    (member_mutation_requests sampleClient
      (fixedWorld (.ok { StatusCode := 200, Body := "\x7b\x7d" })) 1234 "dude@dude.dude"
      "some-token" rfl).1, by decide, by decide⟩

end Pivnet
